import Mathlib

/-!
Shallow embedding of the voice turn-taking controller in
`src/static/js/main.js` (Articoon).

The page script is single-threaded and event-driven: every DOM/engine
callback and every `setTimeout` callback runs to completion before the
next one starts.  We model the module-level mutable state (the globals of
`main.js`) as a structure `St`, each event handler as a pure function
`St → St` translated line by line from the source, and the event loop as
a step function `step : St → Ev → Option St` (`none` when the event's
enabling condition does not hold, e.g. a recognition event while the
engine is not running).

Timers: `setTimeout(f, d)` appends a `Timeout` entry `{id, due, act}`
with `due = now + d` and a fresh `id`; `clearTimeout(x)` removes the
entry whose id is `x` (a no-op for a stale or null handle, as in JS).
A timer fires via the `Ev.fire` step, which requires the entry to be
pending and to have the earliest due time, and advances `now` to `due`;
the `Ev.tick` step advances the clock but may never skip past a pending
due time.  This mirrors the browser event loop, where a due timeout
callback runs before later-scheduled work.

Network: each `fetch` is split into the synchronous part of the calling
handler (which counts the request and records it as in flight) and a
separate resolve/reject event delivering the response.

Instrumentation fields (`createCalls`, `submitCalls`, `closeCalls`,
`alerts`, `messages`, `callbackLog`, `silenceFires`, `lastResultAt`) are
ghost observers: they record which external calls were issued, what the
user can see, which speech-completion callbacks ran, and when silence
deadlines were armed and fired.  They are written, never read, by the
handlers.
-/

/-- The callback stored in a pending `setTimeout` entry.  One constructor
per distinct callback closure created by `main.js`:
the 5000 ms silence deadline armed in `recognition.onresult` (carrying
the ghost time at which it was armed), the 1000 ms restart attempt from
`recognition.onerror`, the 100 ms restart from `recognition.onend`, the
500 ms resume-after-speech from `utterance.onend`/`onerror` (carrying
the utterance id and whether a completion callback was supplied to
`speak`), the 500 ms resume from the empty branch of
`stopListeningAndSend`, and the 1000 ms resume from the catch branch of
`sendMessage`. -/
inductive TAct where
  | silence (armedAt : Nat)
  | errRestart
  | endRestart
  | resumeSpeak (uttId : Nat) (hasCb : Bool)
  | resumeEmpty
  | resumeSendErr
  deriving DecidableEq, Repr

/-- A pending `setTimeout` entry: the handle returned by `setTimeout`,
the absolute time at which it becomes due, and its callback. -/
structure Timeout where
  id : Nat
  due : Nat
  act : TAct
  deriving DecidableEq, Repr

/-- The module-level mutable state of `main.js`, plus the timer queue,
the clock, and ghost instrumentation. -/
structure St where
  /-- `recognition !== null`: `setupSpeechRecognition` found a
  SpeechRecognition capability. -/
  supported : Bool
  /-- global `conversationId` -/
  conversationId : Option Nat
  /-- global `isListening` -/
  isListening : Bool
  /-- the recognition engine is running (a `start()` call succeeded and
  `onend` has not fired yet) -/
  engineOn : Bool
  /-- the engine has started but its `onstart` callback has not been
  delivered yet -/
  onstartPending : Bool
  /-- global `finalTranscript` -/
  finalTranscript : String
  /-- global `interimTranscript` -/
  interimTranscript : String
  /-- global `silenceTimer`: the last `setTimeout` handle stored, possibly
  stale (JS never nulls it) -/
  silenceTimer : Option Nat
  /-- the utterance currently owned by `speechSynthesis`
  (`speechSynthesis.speaking`): its id and whether `speak` was given a
  completion callback -/
  synth : Option (Nat × Bool)
  /-- the countdown interval from `startTimer` is running -/
  timerOn : Bool
  /-- `window.location.href` was assigned -/
  navigated : Bool
  /-- pending `setTimeout` entries -/
  pending : List Timeout
  /-- current time in ms -/
  now : Nat
  /-- fresh-id counter for `setTimeout` handles and utterance ids -/
  nextId : Nat
  /-- ghost: time of the most recent `recognition.onresult` delivery -/
  lastResultAt : Option Nat
  /-- ghost: number of `fetch('/start_conversation')` requests issued -/
  createCalls : Nat
  /-- ghost: number of `fetch('/send_message')` requests issued -/
  submitCalls : Nat
  /-- ghost: number of `fetch('/end_conversation')` requests issued -/
  closeCalls : Nat
  /-- in-flight `/start_conversation` requests -/
  pendingCreate : Nat
  /-- in-flight `/send_message` requests -/
  pendingSend : Nat
  /-- in-flight `/end_conversation` requests -/
  pendingClose : Nat
  /-- ghost: number of `alert(...)` calls -/
  alerts : Nat
  /-- ghost: chat messages shown by `addMessage` (text, isUser) -/
  messages : List (String × Bool)
  /-- ghost: utterance ids whose `speak` completion callback has run -/
  callbackLog : List Nat
  /-- ghost: silence-deadline firings as (handle, armedAt, firedAt) -/
  silenceFires : List (Nat × Nat × Nat)
  deriving DecidableEq, Repr

/-- State right after page load: all globals at their initial values.
`supported` records whether `setupSpeechRecognition` installed an
engine. -/
def initSt (supported : Bool) : St :=
  { supported := supported
    conversationId := none
    isListening := false
    engineOn := false
    onstartPending := false
    finalTranscript := ""
    interimTranscript := ""
    silenceTimer := none
    synth := none
    timerOn := false
    navigated := false
    pending := []
    now := 0
    nextId := 0
    lastResultAt := none
    createCalls := 0
    submitCalls := 0
    closeCalls := 0
    pendingCreate := 0
    pendingSend := 0
    pendingClose := 0
    alerts := 0
    messages := []
    callbackLog := []
    silenceFires := [] }

/-- JavaScript `String.prototype.trim`: strip leading and trailing
whitespace.  Defined over the character list (rather than through core's
`String.trim`, whose accumulator functions do not reduce in the kernel)
so that concrete runs evaluate. -/
def trimString (s : String) : String :=
  ⟨((s.data.dropWhile Char.isWhitespace).reverse.dropWhile Char.isWhitespace).reverse⟩

/-- `clearTimeout(silenceTimer)`: drop the pending entry whose handle is
the one stored in `silenceTimer`; a stale or null handle removes
nothing. -/
def clearSilenceTimeout (s : St) : St :=
  { s with pending := s.pending.filter (fun t => some t.id ≠ s.silenceTimer) }

/-- `setTimeout(act, dur)`: append a fresh entry due at `now + dur` and
return its handle. -/
def schedule (s : St) (dur : Nat) (act : TAct) : St × Nat :=
  ({ s with pending := ⟨s.nextId, s.now + dur, act⟩ :: s.pending
            nextId := s.nextId + 1 }, s.nextId)

/-- `stopListening()` from `main.js`: early return when `recognition` is
null; otherwise clear `isListening`, `clearTimeout(silenceTimer)`, and
request `recognition.stop()` (whose effect, the `onend` event, is
delivered separately; a throw from stopping an inactive engine is
caught). -/
def stopListening (s : St) : St :=
  if !s.supported then s
  else clearSilenceTimeout { s with isListening := false }

/-- `startListening()` from `main.js`: early return when `recognition`
is null or `isListening` is already set; otherwise reset both transcript
buffers and call `recognition.start()` inside try/catch — the call
throws (and is caught, leaving only the buffer reset) when the engine is
already running. -/
def startListening (s : St) : St :=
  if !s.supported || s.isListening then s
  else
    let s := { s with finalTranscript := "", interimTranscript := "" }
    if s.engineOn then s
    else { s with engineOn := true, onstartPending := true }

/-- `speak(text, callback)` from `main.js`: return at once on empty
text; otherwise `stopListening()`, `speechSynthesis.cancel()` (dropping
any current utterance without events), and hand a fresh utterance to the
synthesizer, remembering whether a completion callback was supplied.
The `onend`/`onerror` handlers of the utterance are modelled by the
`utterDone`/`utterFail` events. -/
def speak (s : St) (text : String) (hasCb : Bool) : St :=
  if text = "" then s
  else
    let s := stopListening s
    let s := { s with synth := none }
    { s with synth := some (s.nextId, hasCb), nextId := s.nextId + 1 }

/-- Synchronous part of `sendMessage(msg)`: early return when the
message is empty or no conversation exists; otherwise show the user
message and issue the `/send_message` request. -/
def sendMessage (s : St) (msg : String) : St :=
  if msg = "" ∨ s.conversationId = none then s
  else
    { s with messages := s.messages ++ [(msg, true)]
             submitCalls := s.submitCalls + 1
             pendingSend := s.pendingSend + 1 }

/-- `stopListeningAndSend()` from `main.js`: read the trimmed `finalTranscript`,
stop listening, then either send it (non-empty) or schedule a 500 ms
resume of listening (empty). -/
def stopListeningAndSend (s : St) : St :=
  let msg := trimString s.finalTranscript
  let s := stopListening s
  if msg ≠ "" then sendMessage s msg
  else (schedule s 500 .resumeEmpty).1

/-- `recognition.onresult` handler: clear the silence timer, rebuild
`interimTranscript` from scratch, append each final fragment (plus a
space) to `finalTranscript`, then arm a fresh 5000 ms silence deadline
and store its handle.  The event payload `rs` is the newly delivered
slice of results as (isFinal, transcript) pairs.  `resultStep` is the
body of the handler's for-loop, processing one result. -/
def resultStep (s : St) (r : Bool × String) : St :=
  if r.1 then { s with finalTranscript := s.finalTranscript ++ r.2 ++ " " }
  else { s with interimTranscript := s.interimTranscript ++ r.2 }

def onResultHandler (s : St) (rs : List (Bool × String)) : St :=
  let s := clearSilenceTimeout s
  let s := { s with interimTranscript := "" }
  let s := rs.foldl resultStep s
  let p := schedule s 5000 (.silence s.now)
  { p.1 with silenceTimer := some p.2, lastResultAt := some s.now }

/-- `recognition.onerror` handler for an error other than `no-speech`
and `aborted`: schedule the 1000 ms restart attempt. -/
def onErrorOtherHandler (s : St) : St :=
  (schedule s 1000 .errRestart).1

/-- `recognition.onend` handler: the engine is no longer running; if
`isListening` is still set, schedule the 100 ms restart. -/
def onEndHandler (s : St) : St :=
  let s := { s with engineOn := false, onstartPending := false }
  if s.isListening then (schedule s 100 .endRestart).1 else s

/-- Shared body of `utterance.onend` and `utterance.onerror`: synthesis
of utterance `u` is over; schedule the 500 ms resume (which restarts
listening and runs the caller's callback, if any). -/
def utterTerminal (s : St) (u : Nat × Bool) : St :=
  let s := { s with synth := none }
  (schedule s 500 (.resumeSpeak u.1 u.2)).1

/-- Synchronous part of `startConversation()`: show the loading overlay
and issue the `/start_conversation` request.  There is no guard: every
invocation issues a request. -/
def startConversation (s : St) : St :=
  { s with createCalls := s.createCalls + 1, pendingCreate := s.pendingCreate + 1 }

/-- Continuation of `startConversation` when the request resolves:
record the conversation id, clear the chat area, show the greeting,
speak it (with the logging callback), and start the countdown. -/
def resolveCreateHandler (s : St) (cid : Nat) (greeting : String) : St :=
  let s := { s with pendingCreate := s.pendingCreate - 1
                    conversationId := some cid
                    messages := [] }
  let s := { s with messages := s.messages ++ [(greeting, false)] }
  let s := speak s greeting true
  { s with timerOn := true }

/-- Continuation of `startConversation` when the request rejects: hide
the overlay and alert the user. -/
def rejectCreateHandler (s : St) : St :=
  { s with pendingCreate := s.pendingCreate - 1, alerts := s.alerts + 1 }

/-- Continuation of `sendMessage` when the request resolves with
`reply`: show the reply and speak it (no completion callback). -/
def resolveSendHandler (s : St) (reply : String) : St :=
  let s := { s with pendingSend := s.pendingSend - 1 }
  let s := { s with messages := s.messages ++ [(reply, false)] }
  speak s reply false

/-- Continuation of `sendMessage` when the request rejects: log to the
console only and schedule a 1000 ms resume of listening. -/
def rejectSendHandler (s : St) : St :=
  let s := { s with pendingSend := s.pendingSend - 1 }
  (schedule s 1000 .resumeSendErr).1

/-- Synchronous part of `endConversation()`: stop the countdown, stop
listening, `speechSynthesis.cancel()`, show the overlay, and issue the
`/end_conversation` request.  There is no guard: every invocation issues
a request. -/
def endConversation (s : St) : St :=
  let s := { s with timerOn := false }
  let s := stopListening s
  let s := { s with synth := none }
  { s with closeCalls := s.closeCalls + 1, pendingClose := s.pendingClose + 1 }

/-- `cleanupEverything()` from `main.js`: cancel synthesis, stop
listening, `clearTimeout(silenceTimer)`, stop the countdown. -/
def cleanupEverything (s : St) : St :=
  let s := { s with synth := none }
  let s := stopListening s
  let s := clearSilenceTimeout s
  { s with timerOn := false }

/-- Continuation of `endConversation` when the request resolves: clean
up and navigate to the feedback page. -/
def resolveCloseHandler (s : St) : St :=
  let s := { s with pendingClose := s.pendingClose - 1 }
  let s := cleanupEverything s
  { s with navigated := true }

/-- Continuation of `endConversation` when the request rejects: hide the
overlay and alert the user. -/
def rejectCloseHandler (s : St) : St :=
  { s with pendingClose := s.pendingClose - 1, alerts := s.alerts + 1 }

/-- `sendBtn.onclick`: read the typed text; if non-empty after trimming,
run `stopListeningAndSend()` (which may itself send the voice
transcript), then send the typed text. -/
def clickSendHandler (s : St) (typed : String) : St :=
  if trimString typed = "" then s
  else sendMessage (stopListeningAndSend s) (trimString typed)

/-- `textInput.onkeypress` for Enter: send the typed text if non-empty
after trimming. -/
def pressEnterHandler (s : St) (typed : String) : St :=
  if trimString typed = "" then s
  else sendMessage s (trimString typed)

/-- Run the callback of a fired timer entry (the entry has already been
removed from the queue and the clock advanced to its due time). -/
def runAct (s : St) (entryId : Nat) (a : TAct) : St :=
  match a with
  | .silence armedAt =>
      let s := { s with silenceFires := s.silenceFires ++ [(entryId, armedAt, s.now)] }
      stopListeningAndSend s
  | .errRestart => if s.isListening then startListening s else s
  | .endRestart => if s.isListening then startListening s else s
  | .resumeSpeak uttId hasCb =>
      let s := startListening s
      if hasCb then { s with callbackLog := s.callbackLog ++ [uttId] } else s
  | .resumeEmpty => startListening s
  | .resumeSendErr => startListening s

/-- The events the environment can deliver to the page: user actions,
recognition-engine callbacks, synthesis callbacks, fetch completions,
timer firings, and the passage of time. -/
inductive Ev where
  | clickStart
  | resolveCreate (cid : Nat) (greeting : String)
  | rejectCreate
  | engineStart
  | engineResult (rs : List (Bool × String))
  | engineErrNoSpeech
  | engineErrAborted
  | engineErrOther
  | engineEnd
  | utterDone
  | utterFail
  | pressEnter (typed : String)
  | clickSend (typed : String)
  | clickEnd
  | resolveSend (reply : String)
  | rejectSend
  | resolveClose
  | rejectClose
  | fire (i : Nat)
  | tick (d : Nat)
  deriving DecidableEq

/-- One step of the event loop: `none` when the event is not enabled in
state `s` (no such pending request, engine not running, no current
utterance, timer not pending or not earliest, tick past a due timer);
otherwise the state after running the corresponding handler to
completion. -/
def step (s : St) (e : Ev) : Option St :=
  match e with
  | .clickStart => some (startConversation s)
  | .resolveCreate cid greeting =>
      if 0 < s.pendingCreate then some (resolveCreateHandler s cid greeting) else none
  | .rejectCreate =>
      if 0 < s.pendingCreate then some (rejectCreateHandler s) else none
  | .engineStart =>
      if s.supported ∧ s.onstartPending then
        some { s with isListening := true, onstartPending := false }
      else none
  | .engineResult rs =>
      if s.supported ∧ s.engineOn then some (onResultHandler s rs) else none
  | .engineErrNoSpeech =>
      if s.supported ∧ s.engineOn then some s else none
  | .engineErrAborted =>
      if s.supported ∧ s.engineOn then some s else none
  | .engineErrOther =>
      if s.supported ∧ s.engineOn then some (onErrorOtherHandler s) else none
  | .engineEnd =>
      if s.supported ∧ s.engineOn then some (onEndHandler s) else none
  | .utterDone =>
      match s.synth with
      | some u => some (utterTerminal s u)
      | none => none
  | .utterFail =>
      match s.synth with
      | some u => some (utterTerminal s u)
      | none => none
  | .pressEnter typed => some (pressEnterHandler s typed)
  | .clickSend typed => some (clickSendHandler s typed)
  | .clickEnd => some (endConversation s)
  | .resolveSend reply =>
      if 0 < s.pendingSend then some (resolveSendHandler s reply) else none
  | .rejectSend =>
      if 0 < s.pendingSend then some (rejectSendHandler s) else none
  | .resolveClose =>
      if 0 < s.pendingClose then some (resolveCloseHandler s) else none
  | .rejectClose =>
      if 0 < s.pendingClose then some (rejectCloseHandler s) else none
  | .fire i =>
      match s.pending.find? (fun t => t.id = i) with
      | some t =>
          if s.pending.all (fun u => t.due ≤ u.due) then
            some (runAct { s with pending := s.pending.filter (fun u => u.id ≠ i)
                                  now := t.due } i t.act)
          else none
      | none => none
  | .tick d =>
      if s.pending.all (fun t => s.now + d ≤ t.due) then
        some { s with now := s.now + d }
      else none

/-- Run a list of events from a state; `none` if any event is not
enabled where it occurs. -/
def run (s : St) : List Ev → Option St
  | [] => some s
  | e :: es =>
      match step s e with
      | some s' => run s' es
      | none => none

/-- A state is reachable when some event sequence leads to it from the
initial state of a page (with or without recognition support). -/
def Reachable (s : St) : Prop :=
  ∃ sup evs, run (initSt sup) evs = some s

/-- Whether a timeout entry's callback is the silence deadline. -/
def TAct.isSilence : TAct → Bool
  | .silence _ => true
  | _ => false

/-- The pending silence-deadline entries of a state. -/
def silenceEntries (s : St) : List Timeout :=
  s.pending.filter (fun t => t.act.isSilence)

/-- The utterance ids of the capture-resume entries in a timer queue. -/
def resumeIds (l : List Timeout) : List Nat :=
  l.filterMap (fun t => match t.act with | .resumeSpeak u _ => some u | _ => none)

/-- Every live reference to an utterance in a state: the utterance being
synthesized, the utterances whose completion resume is still pending,
and the utterances whose completion callback already ran. -/
def uttTokens (s : St) : List Nat :=
  (match s.synth with | some u => [u.1] | none => []) ++ resumeIds s.pending ++ s.callbackLog

/-- Concrete reachable state: the conversation has started, the spoken
greeting has completed, capture restarted and is listening, and one
progress event carrying the final fragment "hello" at time 500 has
armed the 5000 ms silence deadline (handle 2, due 5500). -/
def listenSt : St :=
  { supported := true, conversationId := some 1, isListening := true,
    engineOn := true, onstartPending := false, finalTranscript := "hello ",
    interimTranscript := "", silenceTimer := some 2, synth := none,
    timerOn := true, navigated := false,
    pending := [⟨2, 5500, .silence 500⟩], now := 500, nextId := 3,
    lastResultAt := some 500, createCalls := 1, submitCalls := 0,
    closeCalls := 0, pendingCreate := 0, pendingSend := 0, pendingClose := 0,
    alerts := 0, messages := [("Hi", false)], callbackLog := [0],
    silenceFires := [] }

/-- Concrete reachable state: the conversation has just started and the
greeting (utterance 0, with completion callback) is being
synthesized. -/
def speakSt : St :=
  { supported := true, conversationId := some 1, isListening := false,
    engineOn := false, onstartPending := false, finalTranscript := "",
    interimTranscript := "", silenceTimer := none, synth := some (0, true),
    timerOn := true, navigated := false,
    pending := [], now := 0, nextId := 1, lastResultAt := none,
    createCalls := 1, submitCalls := 0, closeCalls := 0, pendingCreate := 0,
    pendingSend := 0, pendingClose := 0, alerts := 0,
    messages := [("Hi", false)], callbackLog := [], silenceFires := [] }

/-- Concrete reachable state: listening, the silence deadline armed by a
purely interim progress event ("um"), so the finalized transcript is
still empty when the deadline will expire. -/
def quietSt : St :=
  { supported := true, conversationId := some 1, isListening := true,
    engineOn := true, onstartPending := false, finalTranscript := "",
    interimTranscript := "um", silenceTimer := some 2, synth := none,
    timerOn := true, navigated := false,
    pending := [⟨2, 5500, .silence 500⟩], now := 500, nextId := 3,
    lastResultAt := some 500, createCalls := 1, submitCalls := 0,
    closeCalls := 0, pendingCreate := 0, pendingSend := 0, pendingClose := 0,
    alerts := 0, messages := [("Hi", false)], callbackLog := [0],
    silenceFires := [] }

/-- Concrete reachable state: a recognition error scheduled the 1000 ms
restart attempt (handle 2, due 1500), and the user then ended the
conversation, so stop has been requested (`isListening = false`) while
the restart timer is still pending. -/
def errSt : St :=
  { supported := true, conversationId := some 1, isListening := false,
    engineOn := true, onstartPending := false, finalTranscript := "",
    interimTranscript := "", silenceTimer := none, synth := none,
    timerOn := false, navigated := false,
    pending := [⟨2, 1500, .errRestart⟩], now := 500, nextId := 3,
    lastResultAt := none, createCalls := 1, submitCalls := 0,
    closeCalls := 1, pendingCreate := 0, pendingSend := 0, pendingClose := 1,
    alerts := 0, messages := [("Hi", false)], callbackLog := [0],
    silenceFires := [] }

/-- Concrete reachable state: an utterance "hi" has been submitted to
the conversation service and its request is in flight. -/
def sentSt : St :=
  { supported := true, conversationId := some 1, isListening := false,
    engineOn := false, onstartPending := false, finalTranscript := "",
    interimTranscript := "", silenceTimer := none, synth := some (0, true),
    timerOn := true, navigated := false,
    pending := [], now := 0, nextId := 1, lastResultAt := none,
    createCalls := 1, submitCalls := 1, closeCalls := 0, pendingCreate := 0,
    pendingSend := 1, pendingClose := 0, alerts := 0,
    messages := [("Hi", false), ("hi", true)], callbackLog := [],
    silenceFires := [] }

/-- The silence-deadline contract of claim C2, stated at a single state
`s`.  (a) a progress event removes any pending silence deadline and arms
exactly one fresh deadline due 5000 ms later; (b) at most one silence
deadline is ever pending, due exactly 5000 ms after the progress event
that armed it, which is the most recent one, and not yet expired;
(c) firing the deadline happens exactly at `armedAt + 5000`, which is
5000 ms after the last progress event, and is recorded exactly once;
(d) no fired handle fires again (fired handles are never pending, and
the fired log has no duplicates); (e) `stopListening` — the cancel
path — leaves no silence deadline pending. -/
def SilenceDeadlineOk (s : St) : Prop :=
  (∀ rs sf, step s (.engineResult rs) = some sf →
      silenceEntries sf = [⟨s.nextId, s.now + 5000, .silence s.now⟩] ∧
      sf.silenceTimer = some s.nextId ∧
      (∀ t ∈ s.pending, t.act.isSilence = true → t ∉ sf.pending)) ∧
  (∀ t1 ∈ silenceEntries s, ∀ t2 ∈ silenceEntries s, t1 = t2) ∧
  (∀ t ∈ silenceEntries s, ∃ a, t.act = .silence a ∧ t.due = a + 5000 ∧
      s.lastResultAt = some a ∧ s.now ≤ t.due) ∧
  (∀ i t a sf, s.pending.find? (fun u => u.id = i) = some t →
      t.act = .silence a → step s (.fire i) = some sf →
      sf.now = a + 5000 ∧ s.lastResultAt = some a ∧
      sf.silenceFires = s.silenceFires ++ [(i, a, a + 5000)]) ∧
  ((s.silenceFires.map (fun f => f.1)).Nodup ∧
      ∀ f ∈ s.silenceFires, ∀ t ∈ s.pending, t.id ≠ f.1) ∧
  silenceEntries (stopListening s) = []

/-- The completion contract of claim C6, stated at a single state `s`.
(a) no utterance's completion callback ever runs twice; (b) a terminal
synthesis event (natural end or error) releases the synthesizer and
schedules exactly one capture-resume carrying the utterance's callback,
which has not run yet; (c) no event other than its own firing removes a
pending capture-resume (in particular no cancel path clears it); (d)
firing the capture-resume restarts capture via `startListening` and
then runs the callback exactly when one was supplied; (e) the clock
never passes a pending timer, so the resume cannot be skipped. -/
def SpeakCompletionOk (s : St) : Prop :=
  s.callbackLog.Nodup ∧
  (∀ u, s.synth = some u → ∀ e, (e = Ev.utterDone ∨ e = Ev.utterFail) →
      ∀ sf, step s e = some sf →
      sf.synth = none ∧
      sf.pending = (⟨s.nextId, s.now + 500, .resumeSpeak u.1 u.2⟩ : Timeout) :: s.pending ∧
      u.1 ∉ s.callbackLog) ∧
  (∀ t ∈ s.pending, ∀ uid cb, t.act = TAct.resumeSpeak uid cb →
      ∀ e sf, step s e = some sf → t ∈ sf.pending ∨ e = Ev.fire t.id) ∧
  (∀ i t uid cb, s.pending.find? (fun u => u.id = i) = some t →
      t.act = TAct.resumeSpeak uid cb →
      ∀ sf, step s (.fire i) = some sf →
      sf = (if cb then
              { startListening { s with pending := s.pending.filter (fun u => u.id ≠ i), now := t.due } with
                  callbackLog := s.callbackLog ++ [uid] }
            else startListening { s with pending := s.pending.filter (fun u => u.id ≠ i), now := t.due })) ∧
  (∀ t ∈ s.pending, s.now ≤ t.due)

/-- Inductive invariant of the event loop.  `timeLe`: the clock never
passes a pending timer.  `idsLt`/`idsNodup`/`silenceRefLt`: timer
handles are allocated fresh.  `silenceShape`: a pending silence deadline
is due exactly 5000 ms after the progress event that armed it, which is
the most recent one, and is the entry referenced by the `silenceTimer`
handle.  `silenceSup`: silence deadlines only exist when recognition is
supported.  `silenceKind`: the `silenceTimer` handle only ever refers to
a silence-deadline entry.  `firesShape`/`firesLt`/`firesFresh`/`firesNodup`:
every recorded silence firing happened 5000 ms after its arming, and no
handle fires twice or returns to the queue.  `listenSup`: the
`isListening` flag requires a recognition engine.  `uttNodup`/`uttLt`:
utterance ids are allocated fresh and each lives in at most one place
(synthesizer, pending resume, or completed log). -/
structure LoopInv (s : St) : Prop where
  timeLe : ∀ t ∈ s.pending, s.now ≤ t.due
  idsLt : ∀ t ∈ s.pending, t.id < s.nextId
  idsNodup : (s.pending.map Timeout.id).Nodup
  silenceShape : ∀ t ∈ s.pending, ∀ a, t.act = .silence a →
      t.due = a + 5000 ∧ s.lastResultAt = some a ∧ s.silenceTimer = some t.id
  silenceSup : ∀ t ∈ s.pending, t.act.isSilence = true → s.supported = true
  silenceRefLt : ∀ i, s.silenceTimer = some i → i < s.nextId
  silenceKind : ∀ t ∈ s.pending, s.silenceTimer = some t.id → t.act.isSilence = true
  firesShape : ∀ f ∈ s.silenceFires, f.2.2 = f.2.1 + 5000
  firesLt : ∀ f ∈ s.silenceFires, f.1 < s.nextId
  firesFresh : ∀ f ∈ s.silenceFires, ∀ t ∈ s.pending, t.id ≠ f.1
  firesNodup : (s.silenceFires.map (fun f => f.1)).Nodup
  listenSup : s.isListening = true → s.supported = true
  uttNodup : (uttTokens s).Nodup
  uttLt : ∀ u ∈ uttTokens s, u < s.nextId

theorem inv_init (sup : Bool) : LoopInv (initSt sup) := by
  constructor <;> simp [initSt, uttTokens, resumeIds]

theorem resumeIds_sublist {l l' : List Timeout} (h : List.Sublist l' l) :
    List.Sublist (resumeIds l') (resumeIds l) :=
  List.Sublist.filterMap _ h

theorem uttTokens_filter (s : St) (p : Timeout → Bool) :
    List.Sublist (uttTokens { s with pending := s.pending.filter p }) (uttTokens s) := by
  unfold uttTokens
  exact ((List.Sublist.refl _).append
    (resumeIds_sublist (List.filter_sublist _))).append (List.Sublist.refl _)

theorem inv_filter (s : St) (p : Timeout → Bool) (h : LoopInv s) :
    LoopInv { s with pending := s.pending.filter p } := by
  constructor
  · exact fun t ht => h.timeLe t (List.mem_of_mem_filter ht)
  · exact fun t ht => h.idsLt t (List.mem_of_mem_filter ht)
  · exact h.idsNodup.sublist (List.Sublist.map _ (List.filter_sublist _))
  · exact fun t ht => h.silenceShape t (List.mem_of_mem_filter ht)
  · exact fun t ht => h.silenceSup t (List.mem_of_mem_filter ht)
  · exact h.silenceRefLt
  · exact fun t ht => h.silenceKind t (List.mem_of_mem_filter ht)
  · exact h.firesShape
  · exact h.firesLt
  · exact fun f hf t ht => h.firesFresh f hf t (List.mem_of_mem_filter ht)
  · exact h.firesNodup
  · exact h.listenSup
  · exact h.uttNodup.sublist (uttTokens_filter s p)
  · exact fun u hu => h.uttLt u (List.Sublist.mem hu (uttTokens_filter s p))

theorem inv_clearSilence (s : St) (h : LoopInv s) : LoopInv (clearSilenceTimeout s) :=
  inv_filter s _ h

theorem inv_stopListening (s : St) (h : LoopInv s) : LoopInv (stopListening s) := by
  unfold stopListening
  split
  · exact h
  · refine inv_clearSilence _ ?_
    constructor
    · exact h.timeLe
    · exact h.idsLt
    · exact h.idsNodup
    · exact h.silenceShape
    · exact h.silenceSup
    · exact h.silenceRefLt
    · exact h.silenceKind
    · exact h.firesShape
    · exact h.firesLt
    · exact h.firesFresh
    · exact h.firesNodup
    · intro hl; cases hl
    · exact h.uttNodup
    · exact h.uttLt

theorem loopInv_defeq {s s' : St} (h : LoopInv s)
    (h1 : s'.pending = s.pending) (h2 : s'.now = s.now) (h3 : s'.nextId = s.nextId)
    (h4 : s'.lastResultAt = s.lastResultAt) (h5 : s'.silenceTimer = s.silenceTimer)
    (h6 : s'.silenceFires = s.silenceFires) (h7 : s'.synth = s.synth)
    (h8 : s'.callbackLog = s.callbackLog) (h9 : s'.isListening = s.isListening)
    (h10 : s'.supported = s.supported) : LoopInv s' := by
  have hu : uttTokens s' = uttTokens s := by unfold uttTokens; rw [h7, h1, h8]
  constructor
  · rw [h1, h2]; exact h.timeLe
  · rw [h1, h3]; exact h.idsLt
  · rw [h1]; exact h.idsNodup
  · rw [h1, h4, h5]; exact h.silenceShape
  · rw [h1, h10]; exact h.silenceSup
  · rw [h5, h3]; exact h.silenceRefLt
  · rw [h1, h5]; exact h.silenceKind
  · rw [h6]; exact h.firesShape
  · rw [h6, h3]; exact h.firesLt
  · rw [h6, h1]; exact h.firesFresh
  · rw [h6]; exact h.firesNodup
  · rw [h9, h10]; exact h.listenSup
  · rw [hu]; exact h.uttNodup
  · rw [hu, h3]; exact h.uttLt

theorem inv_startListening (s : St) (h : LoopInv s) : LoopInv (startListening s) := by
  unfold startListening
  split
  · exact h
  · dsimp only
    split
    · exact loopInv_defeq h rfl rfl rfl rfl rfl rfl rfl rfl rfl rfl
    · exact loopInv_defeq h rfl rfl rfl rfl rfl rfl rfl rfl rfl rfl

theorem uttTokens_cons_eq {s s' : St} {e : Timeout}
    (hp : s'.pending = e :: s.pending) (hs : s'.synth = s.synth)
    (hc : s'.callbackLog = s.callbackLog)
    (he : (match e.act with | TAct.resumeSpeak u _ => some u | _ => none) = none) :
    uttTokens s' = uttTokens s := by
  unfold uttTokens resumeIds
  rw [hp, hs, hc, List.filterMap_cons]
  simp only [he]

theorem inv_schedule_plain (s : St) (dur : Nat) (a : TAct)
    (hsil : a.isSilence = false)
    (hres : (match a with | TAct.resumeSpeak u _ => some u | _ => none) = none)
    (h : LoopInv s) : LoopInv (schedule s dur a).1 := by
  have hu : uttTokens (schedule s dur a).1 = uttTokens s :=
    uttTokens_cons_eq rfl rfl rfl hres
  unfold schedule at hu ⊢
  dsimp only at hu ⊢
  constructor
  · intro t ht
    rcases List.mem_cons.mp ht with h1 | h1
    · subst h1; exact Nat.le_add_right _ _
    · exact h.timeLe t h1
  · intro t ht
    rcases List.mem_cons.mp ht with h1 | h1
    · subst h1; exact Nat.lt_succ_self _
    · exact Nat.lt_succ_of_lt (h.idsLt t h1)
  · simp only [List.map_cons]
    refine List.nodup_cons.mpr ⟨fun hmem => ?_, h.idsNodup⟩
    rcases List.mem_map.mp hmem with ⟨t, ht, hid⟩
    exact Nat.ne_of_lt (h.idsLt t ht) hid
  · intro t ht a' hact
    rcases List.mem_cons.mp ht with h1 | h1
    · subst h1; dsimp only at hact; rw [hact] at hsil; cases hsil
    · exact h.silenceShape t h1 a' hact
  · intro t ht hk
    rcases List.mem_cons.mp ht with h1 | h1
    · subst h1; dsimp only at hk; rw [hk] at hsil; cases hsil
    · exact h.silenceSup t h1 hk
  · exact fun i hi => Nat.lt_succ_of_lt (h.silenceRefLt i hi)
  · intro t ht hk
    rcases List.mem_cons.mp ht with h1 | h1
    · subst h1
      exact absurd (h.silenceRefLt _ hk) (Nat.lt_irrefl _)
    · exact h.silenceKind t h1 hk
  · exact h.firesShape
  · exact fun f hf => Nat.lt_succ_of_lt (h.firesLt f hf)
  · intro f hf t ht
    rcases List.mem_cons.mp ht with h1 | h1
    · subst h1; exact fun hc => Nat.ne_of_lt (h.firesLt f hf) hc.symm
    · exact h.firesFresh f hf t h1
  · exact h.firesNodup
  · exact h.listenSup
  · rw [hu]; exact h.uttNodup
  · rw [hu]; exact fun u hu' => Nat.lt_succ_of_lt (h.uttLt u hu')

theorem inv_sendMessage (s : St) (msg : String) (h : LoopInv s) :
    LoopInv (sendMessage s msg) := by
  unfold sendMessage
  split
  · exact h
  · exact loopInv_defeq h rfl rfl rfl rfl rfl rfl rfl rfl rfl rfl

theorem inv_stopListeningAndSend (s : St) (h : LoopInv s) :
    LoopInv (stopListeningAndSend s) := by
  unfold stopListeningAndSend
  dsimp only
  split
  · exact inv_sendMessage _ _ (inv_stopListening s h)
  · exact inv_schedule_plain _ _ _ rfl rfl (inv_stopListening s h)

theorem inv_onErrorOther (s : St) (h : LoopInv s) :
    LoopInv (onErrorOtherHandler s) :=
  inv_schedule_plain s 1000 .errRestart rfl rfl h

theorem inv_onEnd (s : St) (h : LoopInv s) : LoopInv (onEndHandler s) := by
  unfold onEndHandler
  dsimp only
  have h1 : LoopInv { s with engineOn := false, onstartPending := false } :=
    loopInv_defeq h rfl rfl rfl rfl rfl rfl rfl rfl rfl rfl
  split
  · exact inv_schedule_plain _ _ _ rfl rfl h1
  · exact h1

theorem inv_startConversation (s : St) (h : LoopInv s) :
    LoopInv (startConversation s) :=
  loopInv_defeq h rfl rfl rfl rfl rfl rfl rfl rfl rfl rfl

theorem inv_rejectCreate (s : St) (h : LoopInv s) :
    LoopInv (rejectCreateHandler s) :=
  loopInv_defeq h rfl rfl rfl rfl rfl rfl rfl rfl rfl rfl

theorem inv_rejectClose (s : St) (h : LoopInv s) :
    LoopInv (rejectCloseHandler s) :=
  loopInv_defeq h rfl rfl rfl rfl rfl rfl rfl rfl rfl rfl

theorem inv_rejectSend (s : St) (h : LoopInv s) :
    LoopInv (rejectSendHandler s) := by
  unfold rejectSendHandler
  dsimp only
  refine inv_schedule_plain _ _ _ rfl rfl ?_
  exact loopInv_defeq h rfl rfl rfl rfl rfl rfl rfl rfl rfl rfl

theorem inv_synthNone (s : St) (h : LoopInv s) : LoopInv { s with synth := none } := by
  have hs : List.Sublist (uttTokens { s with synth := none }) (uttTokens s) := by
    unfold uttTokens
    dsimp only
    cases s.synth
    · exact List.Sublist.refl _
    · exact ((List.nil_sublist _).append (List.Sublist.refl _)).append (List.Sublist.refl _)
  constructor
  · exact h.timeLe
  · exact h.idsLt
  · exact h.idsNodup
  · exact h.silenceShape
  · exact h.silenceSup
  · exact h.silenceRefLt
  · exact h.silenceKind
  · exact h.firesShape
  · exact h.firesLt
  · exact h.firesFresh
  · exact h.firesNodup
  · exact h.listenSup
  · exact h.uttNodup.sublist hs
  · exact fun u hu => h.uttLt u (hs.mem hu)

theorem inv_newUtt (s : St) (cb : Bool) (h : LoopInv s) (hn : s.synth = none) :
    LoopInv { s with synth := some (s.nextId, cb), nextId := s.nextId + 1 } := by
  have htok : uttTokens { s with synth := some (s.nextId, cb), nextId := s.nextId + 1 }
      = s.nextId :: uttTokens s := by
    unfold uttTokens
    dsimp only
    rw [hn]
    simp
  constructor
  · exact h.timeLe
  · exact fun t ht => Nat.lt_succ_of_lt (h.idsLt t ht)
  · exact h.idsNodup
  · exact h.silenceShape
  · exact h.silenceSup
  · exact fun i hi => Nat.lt_succ_of_lt (h.silenceRefLt i hi)
  · exact h.silenceKind
  · exact h.firesShape
  · exact fun f hf => Nat.lt_succ_of_lt (h.firesLt f hf)
  · exact h.firesFresh
  · exact h.firesNodup
  · exact h.listenSup
  · rw [htok]
    exact List.nodup_cons.mpr ⟨fun hm => Nat.lt_irrefl _ (h.uttLt _ hm), h.uttNodup⟩
  · rw [htok]
    intro u hu
    rcases List.mem_cons.mp hu with h1 | h1
    · subst h1; exact Nat.lt_succ_self _
    · exact Nat.lt_succ_of_lt (h.uttLt u h1)

theorem inv_speak (s : St) (text : String) (cb : Bool) (h : LoopInv s) :
    LoopInv (speak s text cb) := by
  unfold speak
  split
  · exact h
  · dsimp only
    exact inv_newUtt { stopListening s with synth := none } cb
      (inv_synthNone _ (inv_stopListening s h)) rfl

theorem inv_resolveCreate (s : St) (cid : Nat) (g : String) (h : LoopInv s) :
    LoopInv (resolveCreateHandler s cid g) := by
  unfold resolveCreateHandler
  dsimp only
  have h0 : LoopInv { s with pendingCreate := s.pendingCreate - 1, conversationId := some cid, messages := [(g, false)] } :=
    loopInv_defeq h rfl rfl rfl rfl rfl rfl rfl rfl rfl rfl
  have h1 := inv_speak _ g true h0
  exact loopInv_defeq h1 rfl rfl rfl rfl rfl rfl rfl rfl rfl rfl

theorem inv_resolveSend (s : St) (reply : String) (h : LoopInv s) :
    LoopInv (resolveSendHandler s reply) := by
  unfold resolveSendHandler
  dsimp only
  have h0 : LoopInv { s with pendingSend := s.pendingSend - 1, messages := s.messages ++ [(reply, false)] } :=
    loopInv_defeq h rfl rfl rfl rfl rfl rfl rfl rfl rfl rfl
  exact inv_speak _ reply false h0

theorem inv_endConversation (s : St) (h : LoopInv s) : LoopInv (endConversation s) := by
  unfold endConversation
  dsimp only
  have h0 : LoopInv { s with timerOn := false } :=
    loopInv_defeq h rfl rfl rfl rfl rfl rfl rfl rfl rfl rfl
  have h1 := inv_synthNone _ (inv_stopListening _ h0)
  exact loopInv_defeq h1 rfl rfl rfl rfl rfl rfl rfl rfl rfl rfl

theorem inv_cleanup (s : St) (h : LoopInv s) : LoopInv (cleanupEverything s) := by
  unfold cleanupEverything
  dsimp only
  have h1 := inv_clearSilence _ (inv_stopListening _ (inv_synthNone _ h))
  exact loopInv_defeq h1 rfl rfl rfl rfl rfl rfl rfl rfl rfl rfl

theorem inv_resolveClose (s : St) (h : LoopInv s) : LoopInv (resolveCloseHandler s) := by
  unfold resolveCloseHandler
  dsimp only
  have h0 : LoopInv { s with pendingClose := s.pendingClose - 1 } :=
    loopInv_defeq h rfl rfl rfl rfl rfl rfl rfl rfl rfl rfl
  have h1 := inv_cleanup _ h0
  exact loopInv_defeq h1 rfl rfl rfl rfl rfl rfl rfl rfl rfl rfl

theorem inv_clickSend (s : St) (typed : String) (h : LoopInv s) :
    LoopInv (clickSendHandler s typed) := by
  unfold clickSendHandler
  split
  · exact h
  · exact inv_sendMessage _ _ (inv_stopListeningAndSend s h)

theorem inv_pressEnter (s : St) (typed : String) (h : LoopInv s) :
    LoopInv (pressEnterHandler s typed) := by
  unfold pressEnterHandler
  split
  · exact h
  · exact inv_sendMessage _ _ h

theorem foldResults_shape (rs : List (Bool × String)) :
    ∀ s : St, ∃ f i, rs.foldl resultStep s =
      { s with finalTranscript := f, interimTranscript := i } := by
  induction rs with
  | nil => exact fun s => ⟨s.finalTranscript, s.interimTranscript, rfl⟩
  | cons r rs ih =>
      intro s
      rcases ih (resultStep s r) with ⟨f, i, hf⟩
      refine ⟨f, i, ?_⟩
      rw [List.foldl_cons, hf]
      unfold resultStep
      split <;> rfl

theorem silence_cleared (s : St) (h : LoopInv s) :
    ∀ t ∈ (clearSilenceTimeout s).pending, t.act.isSilence = false := by
  intro t ht
  have hm := List.mem_filter.mp ht
  cases hact : t.act with
  | silence a =>
      exfalso
      have h3 := (h.silenceShape t hm.1 a hact).2.2
      exact (of_decide_eq_true hm.2) h3.symm
  | errRestart => rfl
  | endRestart => rfl
  | resumeSpeak u cb => rfl
  | resumeEmpty => rfl
  | resumeSendErr => rfl

theorem inv_arm_silence (s : St) (hsup : s.supported = true) (h : LoopInv s)
    (hno : ∀ t ∈ s.pending, t.act.isSilence = false) :
    LoopInv { (schedule s 5000 (.silence s.now)).1 with silenceTimer := some s.nextId, lastResultAt := some s.now } := by
  unfold schedule
  dsimp only
  have htok : uttTokens { s with pending := (⟨s.nextId, s.now + 5000, .silence s.now⟩ : Timeout) :: s.pending, nextId := s.nextId + 1, silenceTimer := some s.nextId, lastResultAt := some s.now } = uttTokens s :=
    uttTokens_cons_eq rfl rfl rfl rfl
  constructor
  · intro t ht
    rcases List.mem_cons.mp ht with h1 | h1
    · subst h1; exact Nat.le_add_right _ _
    · exact h.timeLe t h1
  · intro t ht
    rcases List.mem_cons.mp ht with h1 | h1
    · subst h1; exact Nat.lt_succ_self _
    · exact Nat.lt_succ_of_lt (h.idsLt t h1)
  · simp only [List.map_cons]
    refine List.nodup_cons.mpr ⟨fun hmem => ?_, h.idsNodup⟩
    rcases List.mem_map.mp hmem with ⟨t, ht, hid⟩
    exact Nat.ne_of_lt (h.idsLt t ht) hid
  · intro t ht a' hact
    rcases List.mem_cons.mp ht with h1 | h1
    · subst h1
      dsimp only at hact
      injection hact with h2
      subst h2
      exact ⟨rfl, rfl, rfl⟩
    · exfalso
      have hx := hno t h1
      rw [hact] at hx
      simp [TAct.isSilence] at hx
  · intro t ht hk
    exact hsup
  · intro i hi
    dsimp only at hi
    injection hi with h2
    subst h2
    exact Nat.lt_succ_self _
  · intro t ht hk
    rcases List.mem_cons.mp ht with h1 | h1
    · subst h1; rfl
    · exfalso
      dsimp only at hk
      injection hk with h2
      have hlt := h.idsLt t h1
      rw [← h2] at hlt
      exact Nat.lt_irrefl _ hlt
  · exact h.firesShape
  · exact fun f hf => Nat.lt_succ_of_lt (h.firesLt f hf)
  · intro f hf t ht
    rcases List.mem_cons.mp ht with h1 | h1
    · subst h1; exact fun hc => Nat.ne_of_lt (h.firesLt f hf) hc.symm
    · exact h.firesFresh f hf t h1
  · exact h.firesNodup
  · exact fun _ => hsup
  · rw [htok]; exact h.uttNodup
  · rw [htok]; exact fun u hu => Nat.lt_succ_of_lt (h.uttLt u hu)

theorem inv_onResult (s : St) (rs : List (Bool × String)) (hsup : s.supported = true)
    (h : LoopInv s) : LoopInv (onResultHandler s rs) := by
  unfold onResultHandler
  dsimp only
  rcases foldResults_shape rs { clearSilenceTimeout s with interimTranscript := "" } with ⟨f, i, hfold⟩
  rw [hfold]
  have h2 : LoopInv { clearSilenceTimeout s with finalTranscript := f, interimTranscript := i } :=
    loopInv_defeq (inv_clearSilence s h) rfl rfl rfl rfl rfl rfl rfl rfl rfl rfl
  exact inv_arm_silence { clearSilenceTimeout s with finalTranscript := f, interimTranscript := i }
    hsup h2 (fun t ht => silence_cleared s h t ht)

theorem perm_cons_filter (t : Timeout) (l : List Timeout) (ht : t ∈ l)
    (hnd : (l.map Timeout.id).Nodup) :
    List.Perm l (t :: l.filter (fun u => u.id ≠ t.id)) := by
  induction l with
  | nil => cases ht
  | cons a l ih =>
      rw [List.map_cons, List.nodup_cons] at hnd
      rcases List.mem_cons.mp ht with h1 | h1
      · subst h1
        have hfl : l.filter (fun u => u.id ≠ t.id) = l := by
          apply List.filter_eq_self.mpr
          intro u hu
          exact decide_eq_true
            (fun he => hnd.1 (he ▸ List.mem_map_of_mem Timeout.id hu))
        have hstep : List.filter (fun u => decide (u.id ≠ t.id)) (t :: l)
            = List.filter (fun u => decide (u.id ≠ t.id)) l :=
          List.filter_cons_of_neg (by simp)
        simp only [hstep, hfl]
        exact List.Perm.refl _
      · have ha : a.id ≠ t.id :=
          fun he => hnd.1 (he.symm ▸ List.mem_map_of_mem Timeout.id h1)
        have hstep : List.filter (fun u => decide (u.id ≠ t.id)) (a :: l)
            = a :: List.filter (fun u => decide (u.id ≠ t.id)) l :=
          List.filter_cons_of_pos (decide_eq_true ha)
        simp only [hstep]
        exact ((ih h1 hnd.2).cons a).trans (List.Perm.swap _ _ _)

theorem inv_fire_base (s : St) (t : Timeout) (_ht : t ∈ s.pending)
    (hmin : ∀ u ∈ s.pending, t.due ≤ u.due) (h : LoopInv s) :
    LoopInv { s with pending := s.pending.filter (fun u => u.id ≠ t.id), now := t.due } := by
  have hsub : List.Sublist (s.pending.filter (fun u => u.id ≠ t.id)) s.pending :=
    List.filter_sublist _
  have htok : List.Sublist (uttTokens { s with pending := s.pending.filter (fun u => u.id ≠ t.id), now := t.due }) (uttTokens s) := by
    unfold uttTokens
    exact ((List.Sublist.refl _).append (resumeIds_sublist hsub)).append (List.Sublist.refl _)
  constructor
  · exact fun u hu => hmin u (hsub.mem hu)
  · exact fun u hu => h.idsLt u (hsub.mem hu)
  · exact h.idsNodup.sublist (List.Sublist.map _ hsub)
  · exact fun u hu => h.silenceShape u (hsub.mem hu)
  · exact fun u hu => h.silenceSup u (hsub.mem hu)
  · exact h.silenceRefLt
  · exact fun u hu => h.silenceKind u (hsub.mem hu)
  · exact h.firesShape
  · exact h.firesLt
  · exact fun f hf u hu => h.firesFresh f hf u (hsub.mem hu)
  · exact h.firesNodup
  · exact h.listenSup
  · exact h.uttNodup.sublist htok
  · exact fun u hu => h.uttLt u (htok.mem hu)

theorem uttTokens_startListening (s : St) :
    uttTokens (startListening s) = uttTokens s := by
  unfold startListening
  split
  · rfl
  · dsimp only
    split
    · rfl
    · rfl

theorem nextId_startListening (s : St) : (startListening s).nextId = s.nextId := by
  unfold startListening
  split
  · rfl
  · dsimp only
    split
    · rfl
    · rfl

theorem inv_appendCallback (s : St) (uid : Nat) (h : LoopInv s)
    (hu : uid ∉ uttTokens s) (hlt : uid < s.nextId) :
    LoopInv { s with callbackLog := s.callbackLog ++ [uid] } := by
  have htok : uttTokens { s with callbackLog := s.callbackLog ++ [uid] }
      = uttTokens s ++ [uid] := by
    unfold uttTokens
    dsimp only
    simp [List.append_assoc]
  constructor
  · exact h.timeLe
  · exact h.idsLt
  · exact h.idsNodup
  · exact h.silenceShape
  · exact h.silenceSup
  · exact h.silenceRefLt
  · exact h.silenceKind
  · exact h.firesShape
  · exact h.firesLt
  · exact h.firesFresh
  · exact h.firesNodup
  · exact h.listenSup
  · rw [htok]
    exact ((List.perm_append_singleton _ _).nodup_iff).mpr
      (List.nodup_cons.mpr ⟨hu, h.uttNodup⟩)
  · rw [htok]
    intro u hmem
    rcases List.mem_append.mp hmem with h1 | h1
    · exact h.uttLt u h1
    · rcases List.mem_singleton.mp h1 with rfl
      exact hlt

theorem uttTokens_fire_perm (s : St) (t : Timeout) (uid : Nat) (cb : Bool)
    (ht : t ∈ s.pending) (hact : t.act = .resumeSpeak uid cb)
    (hnd : (s.pending.map Timeout.id).Nodup) :
    List.Perm (uttTokens s)
      (uid :: uttTokens { s with pending := s.pending.filter (fun u => u.id ≠ t.id), now := t.due }) := by
  have hp := (perm_cons_filter t s.pending ht hnd).filterMap
      (fun u => match u.act with | TAct.resumeSpeak v _ => some v | _ => none)
  rw [List.filterMap_cons] at hp
  simp only [hact] at hp
  unfold uttTokens resumeIds
  dsimp only
  refine ((hp.append_left _).append_right _).trans ?_
  simp only [List.append_assoc, List.cons_append]
  exact List.perm_middle

theorem inv_fire_resume (s : St) (t : Timeout) (uid : Nat) (cb : Bool)
    (ht : t ∈ s.pending) (hact : t.act = .resumeSpeak uid cb)
    (hmin : ∀ u ∈ s.pending, t.due ≤ u.due) (h : LoopInv s) :
    LoopInv (runAct { s with pending := s.pending.filter (fun u => u.id ≠ t.id), now := t.due } t.id t.act) := by
  rw [hact]
  unfold runAct
  dsimp only
  have hbase := inv_fire_base s t ht hmin h
  have hperm := uttTokens_fire_perm s t uid cb ht hact h.idsNodup
  have hnodB := List.nodup_cons.mp ((hperm.nodup_iff).mp h.uttNodup)
  have huid : uid ∈ uttTokens s := (hperm.mem_iff).mpr (List.mem_cons_self _ _)
  split
  · have h1 := inv_startListening _ hbase
    refine inv_appendCallback _ uid h1 ?_ ?_
    · rw [uttTokens_startListening]
      exact hnodB.1
    · rw [nextId_startListening]
      exact h.uttLt uid huid
  · exact inv_startListening _ hbase

theorem inv_fire_silence (s : St) (t : Timeout) (a : Nat)
    (ht : t ∈ s.pending) (hact : t.act = .silence a)
    (hmin : ∀ u ∈ s.pending, t.due ≤ u.due) (h : LoopInv s) :
    LoopInv (runAct { s with pending := s.pending.filter (fun u => u.id ≠ t.id), now := t.due } t.id t.act) := by
  rw [hact]
  unfold runAct
  dsimp only
  have hbase := inv_fire_base s t ht hmin h
  have hshape := h.silenceShape t ht a hact
  refine inv_stopListeningAndSend _ ?_
  constructor
  · exact hbase.timeLe
  · exact hbase.idsLt
  · exact hbase.idsNodup
  · exact hbase.silenceShape
  · exact hbase.silenceSup
  · exact hbase.silenceRefLt
  · exact hbase.silenceKind
  · intro f hf
    rcases List.mem_append.mp hf with h1 | h1
    · exact h.firesShape f h1
    · rcases List.mem_singleton.mp h1 with rfl
      exact hshape.1
  · intro f hf
    rcases List.mem_append.mp hf with h1 | h1
    · exact h.firesLt f h1
    · rcases List.mem_singleton.mp h1 with rfl
      exact h.idsLt t ht
  · intro f hf u hu
    rcases List.mem_append.mp hf with h1 | h1
    · exact hbase.firesFresh f h1 u hu
    · rcases List.mem_singleton.mp h1 with rfl
      exact of_decide_eq_true (List.mem_filter.mp hu).2
  · simp only [List.map_append, List.map_cons, List.map_nil]
    refine ((List.perm_append_singleton _ _).nodup_iff).mpr ?_
    refine List.nodup_cons.mpr ⟨fun hm => ?_, h.firesNodup⟩
    rcases List.mem_map.mp hm with ⟨f, hf, hfid⟩
    exact h.firesFresh f hf t ht hfid.symm
  · exact hbase.listenSup
  · exact hbase.uttNodup
  · exact hbase.uttLt

theorem inv_engineStart (s : St) (hsup : s.supported = true) (h : LoopInv s) :
    LoopInv { s with isListening := true, onstartPending := false } := by
  constructor
  · exact h.timeLe
  · exact h.idsLt
  · exact h.idsNodup
  · exact h.silenceShape
  · exact h.silenceSup
  · exact h.silenceRefLt
  · exact h.silenceKind
  · exact h.firesShape
  · exact h.firesLt
  · exact h.firesFresh
  · exact h.firesNodup
  · exact fun _ => hsup
  · exact h.uttNodup
  · exact h.uttLt

theorem inv_tick (s : St) (d : Nat) (hall : ∀ t ∈ s.pending, s.now + d ≤ t.due)
    (h : LoopInv s) : LoopInv { s with now := s.now + d } := by
  constructor
  · exact hall
  · exact h.idsLt
  · exact h.idsNodup
  · exact h.silenceShape
  · exact h.silenceSup
  · exact h.silenceRefLt
  · exact h.silenceKind
  · exact h.firesShape
  · exact h.firesLt
  · exact h.firesFresh
  · exact h.firesNodup
  · exact h.listenSup
  · exact h.uttNodup
  · exact h.uttLt

theorem inv_schedule_resume (s : St) (uid : Nat) (cb : Bool)
    (h : LoopInv s) (hu : uid ∉ uttTokens s) (hult : uid < s.nextId) :
    LoopInv (schedule s 500 (.resumeSpeak uid cb)).1 := by
  have hperm : List.Perm (uttTokens (schedule s 500 (.resumeSpeak uid cb)).1)
      (uid :: uttTokens s) := by
    unfold uttTokens resumeIds schedule
    dsimp only
    rw [List.filterMap_cons]
    dsimp only
    simp only [List.append_assoc, List.cons_append]
    exact List.perm_middle
  unfold schedule
  dsimp only
  constructor
  · intro t ht
    rcases List.mem_cons.mp ht with h1 | h1
    · subst h1; exact Nat.le_add_right _ _
    · exact h.timeLe t h1
  · intro t ht
    rcases List.mem_cons.mp ht with h1 | h1
    · subst h1; exact Nat.lt_succ_self _
    · exact Nat.lt_succ_of_lt (h.idsLt t h1)
  · simp only [List.map_cons]
    refine List.nodup_cons.mpr ⟨fun hmem => ?_, h.idsNodup⟩
    rcases List.mem_map.mp hmem with ⟨t, ht, hid⟩
    exact Nat.ne_of_lt (h.idsLt t ht) hid
  · intro t ht a' hact
    rcases List.mem_cons.mp ht with h1 | h1
    · subst h1; exact absurd hact (by dsimp only; intro hx; cases hx)
    · exact h.silenceShape t h1 a' hact
  · intro t ht hk
    rcases List.mem_cons.mp ht with h1 | h1
    · subst h1; dsimp only at hk; cases hk
    · exact h.silenceSup t h1 hk
  · exact fun i hi => Nat.lt_succ_of_lt (h.silenceRefLt i hi)
  · intro t ht hk
    rcases List.mem_cons.mp ht with h1 | h1
    · subst h1
      exact absurd (h.silenceRefLt _ hk) (Nat.lt_irrefl _)
    · exact h.silenceKind t h1 hk
  · exact h.firesShape
  · exact fun f hf => Nat.lt_succ_of_lt (h.firesLt f hf)
  · intro f hf t ht
    rcases List.mem_cons.mp ht with h1 | h1
    · subst h1; exact fun hc => Nat.ne_of_lt (h.firesLt f hf) hc.symm
    · exact h.firesFresh f hf t h1
  · exact h.firesNodup
  · exact h.listenSup
  · exact (hperm.nodup_iff).mpr (List.nodup_cons.mpr ⟨hu, h.uttNodup⟩)
  · intro u hm
    rcases List.mem_cons.mp ((hperm.mem_iff).mp hm) with h1 | h1
    · subst h1; exact Nat.lt_succ_of_lt hult
    · exact Nat.lt_succ_of_lt (h.uttLt u h1)

theorem inv_utterTerminal (s : St) (u : Nat × Bool) (hsy : s.synth = some u)
    (h : LoopInv s) : LoopInv (utterTerminal s u) := by
  unfold utterTerminal
  dsimp only
  have htok : uttTokens s = u.1 :: uttTokens { s with synth := none } := by
    unfold uttTokens
    rw [hsy]
    dsimp only
    simp
  have h1 := inv_synthNone s h
  refine inv_schedule_resume _ u.1 u.2 h1 ?_ ?_
  · intro hm
    have hnd := h.uttNodup
    rw [htok] at hnd
    exact (List.nodup_cons.mp hnd).1 hm
  · exact h.uttLt u.1 (by rw [htok]; exact List.mem_cons_self _ _)

theorem inv_step (s s' : St) (e : Ev) (hs : step s e = some s') (h : LoopInv s) :
    LoopInv s' := by
  cases e with
  | clickStart =>
      simp only [step, Option.some.injEq] at hs
      subst hs
      exact inv_startConversation s h
  | resolveCreate cid greeting =>
      simp only [step] at hs
      split at hs
      · simp only [Option.some.injEq] at hs
        subst hs
        exact inv_resolveCreate s cid greeting h
      · exact Option.noConfusion hs
  | rejectCreate =>
      simp only [step] at hs
      split at hs
      · simp only [Option.some.injEq] at hs
        subst hs
        exact inv_rejectCreate s h
      · exact Option.noConfusion hs
  | engineStart =>
      simp only [step] at hs
      split at hs
      · rename_i hc
        simp only [Option.some.injEq] at hs
        subst hs
        exact inv_engineStart s hc.1 h
      · exact Option.noConfusion hs
  | engineResult rs =>
      simp only [step] at hs
      split at hs
      · rename_i hc
        simp only [Option.some.injEq] at hs
        subst hs
        exact inv_onResult s rs hc.1 h
      · exact Option.noConfusion hs
  | engineErrNoSpeech =>
      simp only [step] at hs
      split at hs
      · simp only [Option.some.injEq] at hs
        subst hs
        exact h
      · exact Option.noConfusion hs
  | engineErrAborted =>
      simp only [step] at hs
      split at hs
      · simp only [Option.some.injEq] at hs
        subst hs
        exact h
      · exact Option.noConfusion hs
  | engineErrOther =>
      simp only [step] at hs
      split at hs
      · simp only [Option.some.injEq] at hs
        subst hs
        exact inv_onErrorOther s h
      · exact Option.noConfusion hs
  | engineEnd =>
      simp only [step] at hs
      split at hs
      · simp only [Option.some.injEq] at hs
        subst hs
        exact inv_onEnd s h
      · exact Option.noConfusion hs
  | utterDone =>
      simp only [step] at hs
      cases hsy : s.synth with
      | none => rw [hsy] at hs; exact Option.noConfusion hs
      | some u =>
          rw [hsy] at hs
          simp only [Option.some.injEq] at hs
          subst hs
          exact inv_utterTerminal s u hsy h
  | utterFail =>
      simp only [step] at hs
      cases hsy : s.synth with
      | none => rw [hsy] at hs; exact Option.noConfusion hs
      | some u =>
          rw [hsy] at hs
          simp only [Option.some.injEq] at hs
          subst hs
          exact inv_utterTerminal s u hsy h
  | pressEnter typed =>
      simp only [step, Option.some.injEq] at hs
      subst hs
      exact inv_pressEnter s typed h
  | clickSend typed =>
      simp only [step, Option.some.injEq] at hs
      subst hs
      exact inv_clickSend s typed h
  | clickEnd =>
      simp only [step, Option.some.injEq] at hs
      subst hs
      exact inv_endConversation s h
  | resolveSend reply =>
      simp only [step] at hs
      split at hs
      · simp only [Option.some.injEq] at hs
        subst hs
        exact inv_resolveSend s reply h
      · exact Option.noConfusion hs
  | rejectSend =>
      simp only [step] at hs
      split at hs
      · simp only [Option.some.injEq] at hs
        subst hs
        exact inv_rejectSend s h
      · exact Option.noConfusion hs
  | resolveClose =>
      simp only [step] at hs
      split at hs
      · simp only [Option.some.injEq] at hs
        subst hs
        exact inv_resolveClose s h
      · exact Option.noConfusion hs
  | rejectClose =>
      simp only [step] at hs
      split at hs
      · simp only [Option.some.injEq] at hs
        subst hs
        exact inv_rejectClose s h
      · exact Option.noConfusion hs
  | fire i =>
      simp only [step] at hs
      cases hf : s.pending.find? (fun t => t.id = i) with
      | none => rw [hf] at hs; exact Option.noConfusion hs
      | some t =>
          rw [hf] at hs
          dsimp only at hs
          split at hs
          · rename_i hall
            simp only [Option.some.injEq] at hs
            subst hs
            have ht : t ∈ s.pending := List.mem_of_find?_eq_some hf
            have hpred := List.find?_some hf
            have hid : t.id = i := of_decide_eq_true hpred
            have hmin : ∀ u ∈ s.pending, t.due ≤ u.due := by
              intro u hu
              exact of_decide_eq_true (List.all_eq_true.mp hall u hu)
            subst hid
            have hbase := inv_fire_base s t ht hmin h
            cases hact : t.act with
            | silence a => exact hact ▸ inv_fire_silence s t a ht hact hmin h
            | errRestart =>
                unfold runAct
                dsimp only
                split
                · exact inv_startListening _ hbase
                · exact hbase
            | endRestart =>
                unfold runAct
                dsimp only
                split
                · exact inv_startListening _ hbase
                · exact hbase
            | resumeSpeak uid cb => exact hact ▸ inv_fire_resume s t uid cb ht hact hmin h
            | resumeEmpty =>
                unfold runAct
                dsimp only
                exact inv_startListening _ hbase
            | resumeSendErr =>
                unfold runAct
                dsimp only
                exact inv_startListening _ hbase
          · exact Option.noConfusion hs
  | tick d =>
      simp only [step] at hs
      split at hs
      · rename_i hall
        simp only [Option.some.injEq] at hs
        subst hs
        refine inv_tick s d ?_ h
        intro t ht
        exact of_decide_eq_true (List.all_eq_true.mp hall t ht)
      · exact Option.noConfusion hs

theorem inv_run (evs : List Ev) :
    ∀ s sf : St, run s evs = some sf → LoopInv s → LoopInv sf := by
  induction evs with
  | nil =>
      intro s sf hr h
      simp only [run, Option.some.injEq] at hr
      subst hr
      exact h
  | cons e es ih =>
      intro s sf hr h
      unfold run at hr
      cases hstep : step s e with
      | none => rw [hstep] at hr; exact Option.noConfusion hr
      | some s1 =>
          rw [hstep] at hr
          exact ih s1 sf hr (inv_step s s1 e hstep h)

theorem reachable_inv (s : St) (hr : Reachable s) : LoopInv s := by
  rcases hr with ⟨sup, evs, hrun⟩
  exact inv_run evs _ _ hrun (inv_init sup)

theorem callbackLog_startListening (s : St) :
    (startListening s).callbackLog = s.callbackLog := by
  unfold startListening
  split
  · rfl
  · dsimp only
    split
    · rfl
    · rfl

theorem pending_startListening (s : St) : (startListening s).pending = s.pending := by
  unfold startListening
  split
  · rfl
  · dsimp only
    split
    · rfl
    · rfl

theorem stopListening_not_listening (s : St) (h : LoopInv s) :
    (stopListening s).isListening = false := by
  unfold stopListening
  split
  · rename_i hc
    cases hl : s.isListening
    · rfl
    · exfalso
      have hsup := h.listenSup hl
      rw [hsup] at hc
      simp at hc
  · rfl

/-- Claim C1, counterexample.  The claimed invariant "capture is active
iff the state is Listening, output is active iff the state is Speaking,
never both" fails on a reachable trace: the greeting is spoken and
completes, scheduling the 500 ms capture-resume; the user presses Enter
with "hello" before the resume fires; the reply arrives and its
synthesis begins (which stops capture); then the earlier resume timer
fires at its due time, restarts recognition, and `onstart` sets
`isListening` — so capture is active (flag set and engine running) while
the reply utterance is still being synthesized. -/
theorem C1_mutual_exclusion_cex :
    (run (initSt true)
      [.clickStart, .resolveCreate 1 "Hi", .utterDone, .pressEnter "hello",
       .resolveSend "ok", .fire 1, .engineStart]).map
      (fun s => (s.isListening, s.engineOn, s.synth.isSome)) =
      some (true, true, true) := by
  decide

/-- Claim C1, amended.  What does hold: `speak` deactivates capture
before starting synthesis, so at the start of every synthesized
utterance capture is inactive; the violation arises only later, when a
stale capture-resume callback from an earlier utterance fires during
the new synthesis. -/
theorem C1_speak_suppresses_capture (s : St) (hr : Reachable s)
    (text : String) (cb : Bool) (htx : text ≠ "") :
    (speak s text cb).isListening = false ∧
    ∃ uid, (speak s text cb).synth = some (uid, cb) := by
  have h := reachable_inv s hr
  unfold speak
  rw [if_neg htx]
  dsimp only
  exact ⟨stopListening_not_listening s h, _, rfl⟩

theorem C1_speak_suppresses_capture_witness :
    (speak (initSt true) "x" true).isListening = false ∧
    ∃ uid, (speak (initSt true) "x" true).synth = some (uid, true) :=
  C1_speak_suppresses_capture (initSt true) ⟨true, [], rfl⟩ "x" true (by decide)

/-- Claim C4, counterexample.  `endConversation` has no guard: invoking
it twice issues the `/end_conversation` request (the `closeSession`
operation) twice, refuting "closeSession is called at most once". -/
theorem C4_end_twice_closes_twice_cex :
    (run (initSt true)
      [.clickStart, .resolveCreate 1 "Hi", .clickEnd, .clickEnd]).map
      (fun s => s.closeCalls) = some 2 := by
  decide

/-- Claim C4, amended.  Invoking `endConversation` twice in succession
from any state yields the same final state as invoking it once except
for the close-request bookkeeping: every invocation issues one more
`closeSession` request, so two invocations issue exactly two. -/
theorem C4_end_idempotent_except_close (s : St) :
    endConversation (endConversation s) =
      { endConversation s with
          closeCalls := (endConversation s).closeCalls + 1,
          pendingClose := (endConversation s).pendingClose + 1 } ∧
    (endConversation (endConversation s)).closeCalls = s.closeCalls + 2 := by
  constructor
  · unfold endConversation stopListening clearSilenceTimeout
    dsimp only
    by_cases hsup : s.supported
    · simp [hsup, List.filter_filter]
    · simp [hsup]
  · unfold endConversation stopListening clearSilenceTimeout
    dsimp only
    by_cases hsup : s.supported
    · simp [hsup]
    · simp [hsup]

/-- Claim C8, counterexample.  `startConversation` has no Idle guard:
clicking start twice issues the `/start_conversation` request (the
`createSession` operation) twice — the second call is not ignored. -/
theorem C8_begin_not_noop_cex :
    (run (initSt true) [.clickStart, .clickStart]).map
      (fun s => s.createCalls) = some 2 := by
  decide

/-- Claim C8, amended.  `startConversation` is effective from every
state: each invocation unconditionally issues one `createSession`
request, so duplicate start requests produce duplicate sessions instead
of being ignored. -/
theorem C8_begin_always_requests (s : St) :
    (startConversation (startConversation s)).createCalls = s.createCalls + 2 ∧
    (startConversation (startConversation s)).pendingCreate = s.pendingCreate + 2 := by
  exact ⟨rfl, rfl⟩

/-- Claim C7, counterexample.  When the `/send_message` request rejects,
no user-visible error notice is surfaced: no alert is raised and no
message is added to the chat area (the failure is only written to the
developer console), refuting "a user-visible error notice is
surfaced". -/
theorem C7_no_user_notice_cex :
    (run (initSt true)
      [.clickStart, .resolveCreate 1 "Hi", .pressEnter "hi", .rejectSend]).map
      (fun s => (s.alerts, s.messages, s.synth)) =
      some (0, [("Hi", false), ("hi", true)], some (0, true)) := by
  decide

/-- Claim C7, amended.  When `submitUtterance` fails, the handler only
logs the error: it raises no alert and adds no chat message, attempts no
synthesis for that turn (the synthesizer is untouched), and schedules a
1000 ms capture-resume whose firing invokes `startListening`, returning
the session toward Listening. -/
theorem C7_send_failure_silent_resume (s : St) (hp : 0 < s.pendingSend) :
    ∃ sf, step s .rejectSend = some sf ∧
      sf.alerts = s.alerts ∧ sf.messages = s.messages ∧ sf.synth = s.synth ∧
      (⟨s.nextId, s.now + 1000, .resumeSendErr⟩ : Timeout) ∈ sf.pending ∧
      (∀ x : St, ∀ j : Nat, runAct x j .resumeSendErr = startListening x) := by
  refine ⟨rejectSendHandler s, ?_, rfl, rfl, rfl, ?_, fun x j => rfl⟩
  · simp [step, hp]
  · unfold rejectSendHandler schedule
    dsimp only
    exact List.mem_cons_self _ _

theorem C7_send_failure_silent_resume_witness :
    ∃ sf, step sentSt .rejectSend = some sf ∧
      sf.alerts = sentSt.alerts ∧ sf.messages = sentSt.messages ∧
      sf.synth = sentSt.synth ∧
      (⟨sentSt.nextId, sentSt.now + 1000, .resumeSendErr⟩ : Timeout) ∈ sf.pending ∧
      (∀ x : St, ∀ j : Nat, runAct x j .resumeSendErr = startListening x) :=
  C7_send_failure_silent_resume sentSt (by decide)

/-- Claim C10 (implicit).  `startListening` is total (modelled as a pure
function: the `recognition.start()` call sits inside try/catch, so no
exception escapes) and is a no-op when the recognition capability is
absent or the `isListening` flag is already set; when the engine is
already running, the caught exception leaves only the transcript-buffer
reset behind (no engine state change, no error propagation); otherwise
the buffers are reset and the engine is started. -/
theorem C10_startListening_guarded (s : St) :
    (s.supported = false → startListening s = s) ∧
    (s.isListening = true → startListening s = s) ∧
    (s.supported = true → s.isListening = false → s.engineOn = true →
      startListening s = { s with finalTranscript := "", interimTranscript := "" }) ∧
    (s.supported = true → s.isListening = false → s.engineOn = false →
      startListening s = { s with finalTranscript := "", interimTranscript := "", engineOn := true, onstartPending := true }) := by
  refine ⟨fun h1 => ?_, fun h2 => ?_, fun h1 h2 h3 => ?_, fun h1 h2 h3 => ?_⟩
  · simp [startListening, h1]
  · simp [startListening, h2]
  · simp [startListening, h1, h2, h3]
  · simp [startListening, h1, h2, h3]

theorem C10_startListening_guarded_witness :
    (startListening (initSt false) = initSt false) ∧
    (startListening { initSt true with isListening := true } =
      { initSt true with isListening := true }) ∧
    (startListening { initSt true with engineOn := true, finalTranscript := "x" } =
      { { initSt true with engineOn := true, finalTranscript := "x" } with finalTranscript := "", interimTranscript := "" }) :=
  ⟨(C10_startListening_guarded (initSt false)).1 rfl,
   (C10_startListening_guarded _).2.1 rfl,
   (C10_startListening_guarded _).2.2.1 rfl rfl rfl⟩

theorem foldResults_final_append (rs : List (Bool × String)) :
    ∀ s : St, ∃ added,
      (rs.foldl resultStep s).finalTranscript = s.finalTranscript ++ added := by
  induction rs with
  | nil => exact fun s => ⟨"", (String.append_empty _).symm⟩
  | cons r rs ih =>
      intro s
      rcases ih (resultStep s r) with ⟨added, ha⟩
      unfold resultStep at ha
      by_cases hf : r.1
      · rw [if_pos hf] at ha
        dsimp only at ha
        exact ⟨r.2 ++ " " ++ added, by
          rw [List.foldl_cons]
          unfold resultStep
          rw [if_pos hf]
          rw [ha]
          simp [String.append_assoc]⟩
      · rw [if_neg hf] at ha
        dsimp only at ha
        exact ⟨added, by
          rw [List.foldl_cons]
          unfold resultStep
          rw [if_neg hf]
          exact ha⟩

/-- Claim C9.  The utterance buffer is reset to empty exactly at the
start of every capture attempt (the body of `startListening`, once its
guards pass, clears both buffers before calling `recognition.start()`),
and within an attempt the finalized buffer grows only monotonically:
every `onresult` delivery leaves the old finalized text as a prefix,
appending the new final fragments. -/
theorem C9_buffer_reset_and_monotone (s : St) (rs : List (Bool × String))
    (hsup : s.supported = true) (hnl : s.isListening = false) :
    (startListening s).finalTranscript = "" ∧
    (startListening s).interimTranscript = "" ∧
    ∃ added, (onResultHandler s rs).finalTranscript = s.finalTranscript ++ added := by
  refine ⟨?_, ?_, ?_⟩
  · unfold startListening
    rw [if_neg (by simp [hsup, hnl])]
    dsimp only
    split
    · rfl
    · rfl
  · unfold startListening
    rw [if_neg (by simp [hsup, hnl])]
    dsimp only
    split
    · rfl
    · rfl
  · unfold onResultHandler
    dsimp only
    rcases foldResults_final_append rs
      { clearSilenceTimeout s with interimTranscript := "" } with ⟨added, ha⟩
    exact ⟨added, ha⟩

theorem C9_buffer_reset_and_monotone_witness :
    (startListening { initSt true with finalTranscript := "a " }).finalTranscript = "" ∧
    (startListening { initSt true with finalTranscript := "a " }).interimTranscript = "" ∧
    ∃ added, (onResultHandler { initSt true with finalTranscript := "a " }
        [(true, "b")]).finalTranscript =
      ({ initSt true with finalTranscript := "a " } : St).finalTranscript ++ added :=
  C9_buffer_reset_and_monotone { initSt true with finalTranscript := "a " }
    [(true, "b")] rfl rfl

/-- Claim C5.  A recoverable recognition failure never restarts capture
once stop has been requested: when the 1000 ms error-restart timer
fires while `isListening` is false (a `stopListening` is in effect),
the step consumes the timer and advances the clock and changes nothing
else — recognition is not started. -/
theorem C5_no_restart_after_stop (s : St) (i : Nat) (t : Timeout)
    (hfind : s.pending.find? (fun u => u.id = i) = some t)
    (hmin : s.pending.all (fun u => t.due ≤ u.due) = true)
    (hact : t.act = .errRestart)
    (hstop : s.isListening = false) :
    step s (.fire i) =
      some { s with pending := s.pending.filter (fun u => u.id ≠ i), now := t.due } := by
  simp only [step]
  rw [hfind]
  dsimp only
  rw [if_pos hmin, hact]
  unfold runAct
  dsimp only
  rw [if_neg (by simp [hstop])]

theorem C5_no_restart_after_stop_witness :
    step errSt (.fire 2) =
      some { errSt with pending := errSt.pending.filter (fun u => u.id ≠ 2), now := 1500 } :=
  C5_no_restart_after_stop errSt 2 ⟨2, 1500, .errRestart⟩ (by decide) (by decide)
    rfl rfl

/-- Claim C3.  When the silence deadline expires with an empty (after
trimming) finalized transcript, no utterance is submitted: the
`/send_message` path is not entered (`submitCalls`, in-flight sends and
chat messages unchanged), capture is stopped, and a 500 ms
capture-resume is scheduled whose firing invokes `startListening` — a
silent interval with nothing said never produces a turn. -/
theorem C3_empty_transcript_no_send (s : St) (hr : Reachable s) (i : Nat)
    (t : Timeout) (a : Nat)
    (hfind : s.pending.find? (fun u => u.id = i) = some t)
    (hmin : s.pending.all (fun u => t.due ≤ u.due) = true)
    (hact : t.act = .silence a)
    (hempty : trimString s.finalTranscript = "") :
    ∃ sf, step s (.fire i) = some sf ∧
      sf.submitCalls = s.submitCalls ∧
      sf.pendingSend = s.pendingSend ∧
      sf.messages = s.messages ∧
      sf.isListening = false ∧
      (⟨s.nextId, t.due + 500, .resumeEmpty⟩ : Timeout) ∈ sf.pending ∧
      (∀ x : St, ∀ j : Nat, runAct x j .resumeEmpty = startListening x) := by
  have h := reachable_inv s hr
  have ht : t ∈ s.pending := List.mem_of_find?_eq_some hfind
  have hsup : s.supported = true := h.silenceSup t ht (by rw [hact]; rfl)
  simp only [step]
  rw [hfind]
  dsimp only
  rw [if_pos hmin, hact]
  unfold runAct
  dsimp only
  unfold stopListeningAndSend
  dsimp only
  rw [if_neg (fun hne => hne hempty)]
  unfold stopListening
  rw [if_neg (by simp [hsup])]
  unfold schedule clearSilenceTimeout
  dsimp only
  exact ⟨_, rfl, rfl, rfl, rfl, rfl, List.mem_cons_self _ _, fun x j => rfl⟩

theorem C3_empty_transcript_no_send_witness :
    ∃ sf, step quietSt (.fire 2) = some sf ∧
      sf.submitCalls = quietSt.submitCalls ∧
      sf.pendingSend = quietSt.pendingSend ∧
      sf.messages = quietSt.messages ∧
      sf.isListening = false ∧
      (⟨quietSt.nextId, 5500 + 500, .resumeEmpty⟩ : Timeout) ∈ sf.pending ∧
      (∀ x : St, ∀ j : Nat, runAct x j .resumeEmpty = startListening x) :=
  C3_empty_transcript_no_send quietSt
    ⟨true, [.clickStart, .resolveCreate 1 "Hi", .utterDone, .fire 1,
      .engineStart, .engineResult [(false, "um")]], by decide⟩
    2 ⟨2, 5500, .silence 500⟩ 500 (by decide) (by decide) rfl (by decide)

theorem onResult_fields (s : St) (rs : List (Bool × String)) :
    (onResultHandler s rs).pending =
      (⟨s.nextId, s.now + 5000, TAct.silence s.now⟩ : Timeout) :: (clearSilenceTimeout s).pending ∧
    (onResultHandler s rs).silenceTimer = some s.nextId := by
  unfold onResultHandler
  dsimp only
  rcases foldResults_shape rs { clearSilenceTimeout s with interimTranscript := "" }
    with ⟨f, i2, hfold⟩
  rw [hfold]
  exact ⟨rfl, rfl⟩

theorem stopListening_now (x : St) : (stopListening x).now = x.now := by
  unfold stopListening clearSilenceTimeout
  split
  · rfl
  · rfl

theorem sendMessage_now (x : St) (m : String) : (sendMessage x m).now = x.now := by
  unfold sendMessage
  split
  · rfl
  · rfl

theorem stopListeningAndSend_now (x : St) :
    (stopListeningAndSend x).now = x.now := by
  unfold stopListeningAndSend
  dsimp only
  split
  · rw [sendMessage_now, stopListening_now]
  · unfold schedule
    dsimp only
    exact stopListening_now x

theorem stopListening_fires (x : St) :
    (stopListening x).silenceFires = x.silenceFires := by
  unfold stopListening clearSilenceTimeout
  split
  · rfl
  · rfl

theorem sendMessage_fires (x : St) (m : String) :
    (sendMessage x m).silenceFires = x.silenceFires := by
  unfold sendMessage
  split
  · rfl
  · rfl

theorem stopListeningAndSend_fires (x : St) :
    (stopListeningAndSend x).silenceFires = x.silenceFires := by
  unfold stopListeningAndSend
  dsimp only
  split
  · rw [sendMessage_fires, stopListening_fires]
  · unfold schedule
    dsimp only
    exact stopListening_fires x

/-- Claim C2.  At every reachable state the silence-deadline contract
holds: every progress event cancels the pending deadline and arms a
fresh one due 5000 ms later; at most one deadline is pending, due
exactly 5000 ms after the most recent progress event; its firing
happens exactly then and is recorded once; no fired handle can fire
again; and the cancel path (`stopListening`) leaves no deadline
pending. -/
theorem C2_silence_deadline (s : St) (hr : Reachable s) : SilenceDeadlineOk s := by
  have h := reachable_inv s hr
  refine ⟨?_, ?_, ?_, ?_, ⟨h.firesNodup, fun f hf t ht => h.firesFresh f hf t ht⟩, ?_⟩
  · intro rs sf hs
    simp only [step] at hs
    split at hs
    · simp only [Option.some.injEq] at hs
      subst hs
      have hp := onResult_fields s rs
      refine ⟨?_, hp.2, ?_⟩
      · unfold silenceEntries
        rw [hp.1]
        rw [List.filter_cons_of_pos (by rfl)]
        rw [List.filter_eq_nil_iff.mpr ?_]
        intro u hu hcon
        have hx := silence_cleared s h u hu
        rw [hcon] at hx
        cases hx
      · intro t ht hsil hmem
        rw [hp.1] at hmem
        rcases List.mem_cons.mp hmem with h1 | h1
        · have hlt := h.idsLt t ht
          rw [h1] at hlt
          exact Nat.lt_irrefl _ hlt
        · have hx := silence_cleared s h t h1
          rw [hsil] at hx
          cases hx
    · exact Option.noConfusion hs
  · intro t1 h1 t2 h2
    have hm1 := List.mem_filter.mp h1
    have hm2 := List.mem_filter.mp h2
    have ha1 : ∃ a, t1.act = TAct.silence a := by
      cases hx : t1.act with
      | silence a => exact ⟨a, rfl⟩
      | errRestart => rw [hx] at hm1; cases hm1.2
      | endRestart => rw [hx] at hm1; cases hm1.2
      | resumeSpeak u cb => rw [hx] at hm1; cases hm1.2
      | resumeEmpty => rw [hx] at hm1; cases hm1.2
      | resumeSendErr => rw [hx] at hm1; cases hm1.2
    have ha2 : ∃ a, t2.act = TAct.silence a := by
      cases hx : t2.act with
      | silence a => exact ⟨a, rfl⟩
      | errRestart => rw [hx] at hm2; cases hm2.2
      | endRestart => rw [hx] at hm2; cases hm2.2
      | resumeSpeak u cb => rw [hx] at hm2; cases hm2.2
      | resumeEmpty => rw [hx] at hm2; cases hm2.2
      | resumeSendErr => rw [hx] at hm2; cases hm2.2
    rcases ha1 with ⟨a1, hx1⟩
    rcases ha2 with ⟨a2, hx2⟩
    have hs1 := (h.silenceShape t1 hm1.1 a1 hx1).2.2
    have hs2 := (h.silenceShape t2 hm2.1 a2 hx2).2.2
    rw [hs1] at hs2
    injection hs2 with hid
    exact List.inj_on_of_nodup_map h.idsNodup hm1.1 hm2.1 hid
  · intro t ht
    have hm := List.mem_filter.mp ht
    have ha : ∃ a, t.act = TAct.silence a := by
      cases hx : t.act with
      | silence a => exact ⟨a, rfl⟩
      | errRestart => rw [hx] at hm; cases hm.2
      | endRestart => rw [hx] at hm; cases hm.2
      | resumeSpeak u cb => rw [hx] at hm; cases hm.2
      | resumeEmpty => rw [hx] at hm; cases hm.2
      | resumeSendErr => rw [hx] at hm; cases hm.2
    rcases ha with ⟨a, hx⟩
    have hsh := h.silenceShape t hm.1 a hx
    exact ⟨a, hx, hsh.1, hsh.2.1, h.timeLe t hm.1⟩
  · intro i t a sf hfind hact hs
    simp only [step] at hs
    rw [hfind] at hs
    dsimp only at hs
    split at hs
    · simp only [Option.some.injEq] at hs
      subst hs
      have ht := List.mem_of_find?_eq_some hfind
      have hsh := h.silenceShape t ht a hact
      rw [hact]
      unfold runAct
      dsimp only
      refine ⟨?_, hsh.2.1, ?_⟩
      · rw [stopListeningAndSend_now]
        exact hsh.1
      · rw [stopListeningAndSend_fires]
        rw [hsh.1]
    · exact Option.noConfusion hs
  · unfold stopListening
    split
    · rename_i hc
      unfold silenceEntries
      apply List.filter_eq_nil_iff.mpr
      intro u hu hcon
      have hx := h.silenceSup u hu hcon
      rw [hx] at hc
      simp at hc
    · unfold silenceEntries
      apply List.filter_eq_nil_iff.mpr
      intro u hu hcon
      have hx := silence_cleared s h u hu
      rw [hcon] at hx
      cases hx

theorem C2_silence_deadline_witness :
    Reachable listenSt ∧ SilenceDeadlineOk listenSt :=
  ⟨⟨true, [.clickStart, .resolveCreate 1 "Hi", .utterDone, .fire 1,
      .engineStart, .engineResult [(true, "hello")]], by decide⟩,
   C2_silence_deadline listenSt
    ⟨true, [.clickStart, .resolveCreate 1 "Hi", .utterDone, .fire 1,
      .engineStart, .engineResult [(true, "hello")]], by decide⟩⟩

theorem uttTokens_synth_cons (s : St) (u : Nat × Bool) (hsy : s.synth = some u) :
    uttTokens s = u.1 :: uttTokens { s with synth := none } := by
  unfold uttTokens
  rw [hsy]
  dsimp only
  simp

theorem mem_clearSilence_of (s : St) (t : Timeout)
    (hk : ∀ u ∈ s.pending, s.silenceTimer = some u.id → u.act.isSilence = true)
    (ht : t ∈ s.pending) (hns : t.act.isSilence = false) :
    t ∈ (clearSilenceTimeout s).pending := by
  unfold clearSilenceTimeout
  dsimp only
  refine List.mem_filter.mpr ⟨ht, decide_eq_true ?_⟩
  intro hcon
  have hx := hk t ht hcon.symm
  rw [hns] at hx
  cases hx

theorem mem_stopListening_of (s : St) (t : Timeout)
    (hk : ∀ u ∈ s.pending, s.silenceTimer = some u.id → u.act.isSilence = true)
    (ht : t ∈ s.pending) (hns : t.act.isSilence = false) :
    t ∈ (stopListening s).pending := by
  unfold stopListening
  split
  · exact ht
  · exact mem_clearSilence_of _ t hk ht hns

theorem mem_sendMessage_of (s : St) (m : String) (t : Timeout)
    (ht : t ∈ s.pending) : t ∈ (sendMessage s m).pending := by
  unfold sendMessage
  split
  · exact ht
  · exact ht

theorem mem_speak_of (s : St) (text : String) (cb : Bool) (t : Timeout)
    (hk : ∀ u ∈ s.pending, s.silenceTimer = some u.id → u.act.isSilence = true)
    (ht : t ∈ s.pending) (hns : t.act.isSilence = false) :
    t ∈ (speak s text cb).pending := by
  unfold speak
  split
  · exact ht
  · dsimp only
    exact mem_stopListening_of s t hk ht hns

theorem mem_stopListeningAndSend_of (s : St) (t : Timeout)
    (hk : ∀ u ∈ s.pending, s.silenceTimer = some u.id → u.act.isSilence = true)
    (ht : t ∈ s.pending) (hns : t.act.isSilence = false) :
    t ∈ (stopListeningAndSend s).pending := by
  unfold stopListeningAndSend
  dsimp only
  split
  · exact mem_sendMessage_of _ _ t (mem_stopListening_of s t hk ht hns)
  · unfold schedule
    dsimp only
    exact List.mem_cons_of_mem _ (mem_stopListening_of s t hk ht hns)

theorem kind_after_stopListening (s : St)
    (hk : ∀ u ∈ s.pending, s.silenceTimer = some u.id → u.act.isSilence = true) :
    ∀ u ∈ (stopListening s).pending,
      (stopListening s).silenceTimer = some u.id → u.act.isSilence = true := by
  unfold stopListening
  split
  · exact hk
  · intro u hu hsil
    have hm := List.mem_filter.mp hu
    exact absurd hsil.symm (of_decide_eq_true hm.2)

theorem mem_cleanup_of (s : St) (t : Timeout)
    (hk : ∀ u ∈ s.pending, s.silenceTimer = some u.id → u.act.isSilence = true)
    (ht : t ∈ s.pending) (hns : t.act.isSilence = false) :
    t ∈ (cleanupEverything s).pending := by
  unfold cleanupEverything
  dsimp only
  exact mem_clearSilence_of _ t (kind_after_stopListening { s with synth := none } hk)
    (mem_stopListening_of { s with synth := none } t hk ht hns) hns

/-- No event removes a pending non-silence timer entry, except the
firing of that entry itself: the only `clearTimeout` in the source
targets the silence-deadline handle. -/
theorem mem_pending_step (s sf : St) (e : Ev) (hs : step s e = some sf)
    (h : LoopInv s) (t : Timeout) (ht : t ∈ s.pending)
    (hns : t.act.isSilence = false) :
    t ∈ sf.pending ∨ e = Ev.fire t.id := by
  have hk : ∀ u ∈ s.pending, s.silenceTimer = some u.id → u.act.isSilence = true :=
    fun u hu hsil => h.silenceKind u hu hsil
  cases e with
  | clickStart =>
      simp only [step, Option.some.injEq] at hs
      subst hs
      exact Or.inl ht
  | resolveCreate cid greeting =>
      simp only [step] at hs
      split at hs
      · simp only [Option.some.injEq] at hs
        subst hs
        exact Or.inl (mem_speak_of _ greeting true t hk ht hns)
      · exact Option.noConfusion hs
  | rejectCreate =>
      simp only [step] at hs
      split at hs
      · simp only [Option.some.injEq] at hs
        subst hs
        exact Or.inl ht
      · exact Option.noConfusion hs
  | engineStart =>
      simp only [step] at hs
      split at hs
      · simp only [Option.some.injEq] at hs
        subst hs
        exact Or.inl ht
      · exact Option.noConfusion hs
  | engineResult rs =>
      simp only [step] at hs
      split at hs
      · simp only [Option.some.injEq] at hs
        subst hs
        refine Or.inl ?_
        rw [(onResult_fields s rs).1]
        exact List.mem_cons_of_mem _ (mem_clearSilence_of s t hk ht hns)
      · exact Option.noConfusion hs
  | engineErrNoSpeech =>
      simp only [step] at hs
      split at hs
      · simp only [Option.some.injEq] at hs
        subst hs
        exact Or.inl ht
      · exact Option.noConfusion hs
  | engineErrAborted =>
      simp only [step] at hs
      split at hs
      · simp only [Option.some.injEq] at hs
        subst hs
        exact Or.inl ht
      · exact Option.noConfusion hs
  | engineErrOther =>
      simp only [step] at hs
      split at hs
      · simp only [Option.some.injEq] at hs
        subst hs
        unfold onErrorOtherHandler schedule
        dsimp only
        exact Or.inl (List.mem_cons_of_mem _ ht)
      · exact Option.noConfusion hs
  | engineEnd =>
      simp only [step] at hs
      split at hs
      · simp only [Option.some.injEq] at hs
        subst hs
        unfold onEndHandler
        dsimp only
        refine Or.inl ?_
        split
        · unfold schedule
          dsimp only
          exact List.mem_cons_of_mem _ ht
        · exact ht
      · exact Option.noConfusion hs
  | utterDone =>
      simp only [step] at hs
      cases hsy : s.synth with
      | none => rw [hsy] at hs; exact Option.noConfusion hs
      | some u =>
          rw [hsy] at hs
          simp only [Option.some.injEq] at hs
          subst hs
          unfold utterTerminal schedule
          dsimp only
          exact Or.inl (List.mem_cons_of_mem _ ht)
  | utterFail =>
      simp only [step] at hs
      cases hsy : s.synth with
      | none => rw [hsy] at hs; exact Option.noConfusion hs
      | some u =>
          rw [hsy] at hs
          simp only [Option.some.injEq] at hs
          subst hs
          unfold utterTerminal schedule
          dsimp only
          exact Or.inl (List.mem_cons_of_mem _ ht)
  | pressEnter typed =>
      simp only [step, Option.some.injEq] at hs
      subst hs
      unfold pressEnterHandler
      split
      · exact Or.inl ht
      · exact Or.inl (mem_sendMessage_of _ _ t ht)
  | clickSend typed =>
      simp only [step, Option.some.injEq] at hs
      subst hs
      unfold clickSendHandler
      split
      · exact Or.inl ht
      · exact Or.inl (mem_sendMessage_of _ _ t
          (mem_stopListeningAndSend_of s t hk ht hns))
  | clickEnd =>
      simp only [step, Option.some.injEq] at hs
      subst hs
      unfold endConversation
      dsimp only
      exact Or.inl (mem_stopListening_of { s with timerOn := false } t hk ht hns)
  | resolveSend reply =>
      simp only [step] at hs
      split at hs
      · simp only [Option.some.injEq] at hs
        subst hs
        unfold resolveSendHandler
        dsimp only
        exact Or.inl (mem_speak_of _ reply false t hk ht hns)
      · exact Option.noConfusion hs
  | rejectSend =>
      simp only [step] at hs
      split at hs
      · simp only [Option.some.injEq] at hs
        subst hs
        unfold rejectSendHandler schedule
        dsimp only
        exact Or.inl (List.mem_cons_of_mem _ ht)
      · exact Option.noConfusion hs
  | resolveClose =>
      simp only [step] at hs
      split at hs
      · simp only [Option.some.injEq] at hs
        subst hs
        unfold resolveCloseHandler
        dsimp only
        exact Or.inl (mem_cleanup_of { s with pendingClose := s.pendingClose - 1 } t hk ht hns)
      · exact Option.noConfusion hs
  | rejectClose =>
      simp only [step] at hs
      split at hs
      · simp only [Option.some.injEq] at hs
        subst hs
        exact Or.inl ht
      · exact Option.noConfusion hs
  | fire j =>
      by_cases hj : t.id = j
      · exact Or.inr (by rw [hj])
      · simp only [step] at hs
        cases hf : s.pending.find? (fun u => u.id = j) with
        | none => rw [hf] at hs; exact Option.noConfusion hs
        | some t2 =>
            rw [hf] at hs
            dsimp only at hs
            split at hs
            · simp only [Option.some.injEq] at hs
              subst hs
              refine Or.inl ?_
              have htb : t ∈ List.filter (fun u => u.id ≠ j) s.pending :=
                List.mem_filter.mpr ⟨ht, decide_eq_true hj⟩
              have hkb : ∀ u ∈ List.filter (fun u => u.id ≠ j) s.pending,
                  s.silenceTimer = some u.id → u.act.isSilence = true :=
                fun u hu hsil => hk u (List.mem_of_mem_filter hu) hsil
              cases hact2 : t2.act with
              | silence a =>
                  unfold runAct
                  dsimp only
                  exact mem_stopListeningAndSend_of _ t hkb htb hns
              | errRestart =>
                  unfold runAct
                  dsimp only
                  split
                  · rw [pending_startListening]
                    exact htb
                  · exact htb
              | endRestart =>
                  unfold runAct
                  dsimp only
                  split
                  · rw [pending_startListening]
                    exact htb
                  · exact htb
              | resumeSpeak uid cb =>
                  unfold runAct
                  dsimp only
                  split
                  · show t ∈ (startListening _).pending
                    rw [pending_startListening]
                    exact htb
                  · rw [pending_startListening]
                    exact htb
              | resumeEmpty =>
                  unfold runAct
                  dsimp only
                  rw [pending_startListening]
                  exact htb
              | resumeSendErr =>
                  unfold runAct
                  dsimp only
                  rw [pending_startListening]
                  exact htb
            · exact Option.noConfusion hs
  | tick d =>
      simp only [step] at hs
      split at hs
      · simp only [Option.some.injEq] at hs
        subst hs
        exact Or.inl ht
      · exact Option.noConfusion hs

/-- Claim C6.  At every reachable state the synthesis-completion
contract holds: each utterance's completion callback runs at most once;
a terminal synthesis event (natural end or synthesis error — the two
paths share one handler body) releases the synthesizer and schedules
exactly one 500 ms capture-resume for that utterance, whose callback
has not yet run; no other event can remove that pending resume; firing
it restarts capture via `startListening` and then runs the callback
exactly when one was supplied; and the clock cannot pass the pending
resume without firing it. -/
theorem C6_speak_completion (s : St) (hr : Reachable s) : SpeakCompletionOk s := by
  have h := reachable_inv s hr
  refine ⟨?_, ?_, ?_, ?_, fun t ht => h.timeLe t ht⟩
  · have hsub : List.Sublist s.callbackLog (uttTokens s) := by
      unfold uttTokens
      exact List.sublist_append_right _ _
    exact h.uttNodup.sublist hsub
  · intro u hsy e he sf hs
    have hstep : sf = utterTerminal s u := by
      rcases he with he | he
      · subst he
        simp only [step] at hs
        rw [hsy] at hs
        simp only [Option.some.injEq] at hs
        exact hs.symm
      · subst he
        simp only [step] at hs
        rw [hsy] at hs
        simp only [Option.some.injEq] at hs
        exact hs.symm
    subst hstep
    refine ⟨rfl, rfl, ?_⟩
    intro hmem
    have hnd := h.uttNodup
    rw [uttTokens_synth_cons s u hsy] at hnd
    refine (List.nodup_cons.mp hnd).1 ?_
    unfold uttTokens
    exact List.mem_append_right _ hmem
  · intro t ht uid cb hact e sf hs
    exact mem_pending_step s sf e hs h t ht (by rw [hact]; rfl)
  · intro i t uid cb hfind hact sf hs
    simp only [step] at hs
    rw [hfind] at hs
    dsimp only at hs
    split at hs
    · simp only [Option.some.injEq] at hs
      subst hs
      rw [hact]
      unfold runAct
      dsimp only
      cases cb with
      | true => rw [if_pos rfl, if_pos rfl, callbackLog_startListening]
      | false => rw [if_neg (by simp), if_neg (by simp)]
    · exact Option.noConfusion hs

theorem C6_speak_completion_witness :
    Reachable speakSt ∧ SpeakCompletionOk speakSt :=
  ⟨⟨true, [.clickStart, .resolveCreate 1 "Hi"], by decide⟩,
   C6_speak_completion speakSt
    ⟨true, [.clickStart, .resolveCreate 1 "Hi"], by decide⟩⟩
